import Mathlib

/-!
Shallow embedding of the iso8583-lite codec core (Go) in Lean 4, together
with theorems settling the frozen claims C1..C10 about it.

Modelling conventions:
  - Go byte slices are `List Nat` whose elements are intended below 256;
    theorems that need the byte bound carry it as a hypothesis.
  - Go `int` offsets and lengths are `Nat` (every claim under scrutiny
    quantifies only over non-negative offsets; a negative offset makes the
    Go code panic on a slice expression, which is outside every claim).
  - Go `int` field numbers are `Int`, so that out-of-range and negative
    field numbers behave exactly as in the source.
  - Fallible Go functions returning `(T, error)` become `Except E T` where
    `E` is an inductive of the distinct error kinds of the package;
    the source wraps errors with context strings, which does not change
    the kind, so the embedding keeps kinds only.
  - Go maps used as association containers become association lists
    (`List (Int × _)`) written in insertion order.
-/

set_option maxRecDepth 16384

namespace Iso8583

instance decEqExcept {ε α : Type} [DecidableEq ε] [DecidableEq α] :
    DecidableEq (Except ε α) := fun x y =>
  match x, y with
  | .error e1, .error e2 =>
      if h : e1 = e2 then isTrue (by rw [h])
      else isFalse (by intro hc; cases hc; exact h rfl)
  | .ok a1, .ok a2 =>
      if h : a1 = a2 then isTrue (by rw [h])
      else isFalse (by intro hc; cases hc; exact h rfl)
  | .error _, .ok _ => isFalse (by intro hc; cases hc)
  | .ok _, .error _ => isFalse (by intro hc; cases hc)

/-! ## Specification model (src/pkg/spec/spec.go) -/

/-- FieldType enum: Fixed, L, LL, LLL, Bitmap. -/
inductive FieldType where
  | fixed
  | l
  | ll
  | lll
  | bitmap
deriving DecidableEq

/-- LengthIndicatorDigits returns the number of digits in the length
indicator: L=1, LL=2, LLL=3, else 0. -/
def FieldType.lengthIndicatorDigits : FieldType → Nat
  | .l => 1
  | .ll => 2
  | .lll => 3
  | _ => 0

/-- IsVariable returns true for L, LL, LLL. -/
def FieldType.isVariable : FieldType → Bool
  | .l => true
  | .ll => true
  | .lll => true
  | _ => false

/-- FieldSpec (spec.FieldSpec). Go names the kind field Type, which Lean
reserves, so it is called ftype here. Children models the ordered child
specs of a composite field; fields of FieldSpec not used by any claim
(name, aliases, data type, encoding, padding, tag) are omitted. -/
inductive FSpec where
  | mk (number : Int) (ftype : FieldType) (length : Nat) (maxLength : Nat)
      (children : List FSpec)

def FSpec.number : FSpec → Int
  | .mk n _ _ _ _ => n

def FSpec.ftype : FSpec → FieldType
  | .mk _ t _ _ _ => t

def FSpec.length : FSpec → Nat
  | .mk _ _ len _ _ => len

def FSpec.maxLength : FSpec → Nat
  | .mk _ _ _ m _ => m

def FSpec.children : FSpec → List FSpec
  | .mk _ _ _ _ cs => cs

/-- Spec.Fields: map from field number to field spec (association list). -/
def SpecMap := List (Int × FSpec)

/-- Go map read spec.Fields[fieldNum] with ok flag. -/
def lookupField (s : SpecMap) (fieldNum : Int) : Option FSpec :=
  List.lookup fieldNum s

/-! ## Parser (src/pkg/parser/parser.go and the parser Cursor file) -/

/-- The distinct parser error kinds declared at the top of parser.go. -/
inductive ParseErr where
  | fieldNotDefined
  | offsetExceedsBufferLen
  | unsupportedFieldType
  | insufficientLengthIndicator
  | fieldLengthExceedsMax
  | invalidDigit
deriving DecidableEq

/-- parser.Cursor: start and end positions of field data in the buffer.
The Go struct fields are exported as Start and End. -/
structure Cursor where
  Start : Nat
  End : Nat
deriving DecidableEq

/-- Cursor.Length. -/
def Cursor.len (c : Cursor) : Nat := c.End - c.Start

/-- Cursor.NextOffset: the offset where the next field starts. -/
def Cursor.nextOffset (c : Cursor) : Nat := c.End

/-- parser Cursor.Extract: nil when Start < 0, End > len(buf) or
Start >= End, else buf[Start:End]. The Start < 0 disjunct is vacuous for
Nat. nil becomes none. -/
def Cursor.extract (c : Cursor) (buf : List Nat) : Option (List Nat) :=
  if buf.length < c.End ∨ c.End ≤ c.Start then none
  else some ((buf.drop c.Start).take (c.End - c.Start))

/-- parseInt loop body: result = result*10 + (c - 48), first byte outside
48..57 aborts with the invalid digit error. -/
def parseIntGo (acc : Nat) : List Nat → Except ParseErr Nat
  | [] => .ok acc
  | c :: rest =>
      if c < 48 ∨ 57 < c then .error .invalidDigit
      else parseIntGo (acc * 10 + (c - 48)) rest

/-- parseInt parses a numeric byte slice into an integer. -/
def parseInt (b : List Nat) : Except ParseErr Nat := parseIntGo 0 b

/-- parseFixed: require offset+Length <= len(buf), cursor [offset, offset+Length). -/
def parseFixed (buf : List Nat) (fs : FSpec) (offset : Nat) :
    Except ParseErr Cursor :=
  if buf.length < offset + fs.length then .error .offsetExceedsBufferLen
  else .ok ⟨offset, offset + fs.length⟩

/-- parseVariable: read the length indicator digits, bound by MaxLength,
bound by the buffer, cursor over the data bytes. The Go local variable
lenDigits = LengthIndicatorDigits() is written out in full. -/
def parseVariable (buf : List Nat) (fs : FSpec) (offset : Nat) :
    Except ParseErr Cursor :=
  if buf.length < offset + fs.ftype.lengthIndicatorDigits then
    .error .insufficientLengthIndicator
  else
    match parseInt ((buf.drop offset).take fs.ftype.lengthIndicatorDigits) with
    | .error e => .error e
    | .ok fieldLen =>
        if fs.maxLength < fieldLen then .error .fieldLengthExceedsMax
        else if buf.length < offset + fs.ftype.lengthIndicatorDigits + fieldLen
          then .error .offsetExceedsBufferLen
        else .ok ⟨offset + fs.ftype.lengthIndicatorDigits,
                  offset + fs.ftype.lengthIndicatorDigits + fieldLen⟩

/-- parseBitmap: same shape as parseFixed. -/
def parseBitmapField (buf : List Nat) (fs : FSpec) (offset : Nat) :
    Except ParseErr Cursor :=
  if buf.length < offset + fs.length then .error .offsetExceedsBufferLen
  else .ok ⟨offset, offset + fs.length⟩

/-- Parser.ParseField: spec lookup, offset bound, dispatch on field kind.
The Go default branch returning the unsupported field type error is
unreachable here because FieldType is closed. -/
def ParseField (s : SpecMap) (buf : List Nat) (fieldNum : Int) (offset : Nat) :
    Except ParseErr Cursor :=
  match lookupField s fieldNum with
  | none => .error .fieldNotDefined
  | some fs =>
      if buf.length ≤ offset then .error .offsetExceedsBufferLen
      else
        match fs.ftype with
        | .fixed => parseFixed buf fs offset
        | .l => parseVariable buf fs offset
        | .ll => parseVariable buf fs offset
        | .lll => parseVariable buf fs offset
        | .bitmap => parseBitmapField buf fs offset

/-! ## Bitmap (src/pkg/core bitmap file) -/

/-- ErrInvalidBitmap is the only error kind NewBitmap produces. -/
inductive BitmapErr where
  | invalidBitmap
deriving DecidableEq

/-- core.Bitmap: primary and secondary 64-bit words plus the extended flag.
The words are Nat; every constructor in the source keeps them below 2^64. -/
structure Bitmap where
  primary : Nat
  secondary : Nat
  extended : Bool
deriving DecidableEq

/-- The Go zero value Bitmap{}. -/
def Bitmap.empty : Bitmap := ⟨0, 0, false⟩

/-- binary.BigEndian.Uint64 over the first 8 entries of the list. -/
def beUint64 (b : List Nat) : Nat :=
  (b.take 8).foldl (fun acc c => acc * 256 + c) 0

/-- binary.BigEndian.PutUint64: the 8 big-endian bytes byte(v >> 56),
byte(v >> 48), ..., byte(v); the byte conversion truncates mod 256. -/
def putUint64 (n : Nat) : List Nat :=
  [n >>> 56 % 256, n >>> 48 % 256, n >>> 40 % 256, n >>> 32 % 256,
   n >>> 24 % 256, n >>> 16 % 256, n >>> 8 % 256, n % 256]

/-- Bitmap.IsSet: false outside 1..128, primary bit (64-n) for n <= 64,
false when n >= 65 and not extended, else secondary bit (128-n). -/
def Bitmap.isSet (b : Bitmap) (fieldNum : Int) : Bool :=
  if fieldNum < 1 ∨ 128 < fieldNum then false
  else if fieldNum ≤ 64 then
    b.primary &&& (1 <<< (64 - fieldNum).toNat) != 0
  else if !b.extended then false
  else b.secondary &&& (1 <<< (128 - fieldNum).toNat) != 0

/-- NewBitmap: read 8 primary bytes; if field 1 is set, require and read 8
secondary bytes (data[8:16]) and mark extended; return bytes consumed. -/
def NewBitmap (data : List Nat) : Except BitmapErr (Bitmap × Nat) :=
  if data.length < 8 then .error .invalidBitmap
  else if (⟨beUint64 (data.take 8), 0, false⟩ : Bitmap).isSet 1 then
    if data.length < 16 then .error .invalidBitmap
    else .ok (⟨beUint64 (data.take 8), beUint64 ((data.drop 8).take 8),
               true⟩, 16)
  else .ok (⟨beUint64 (data.take 8), 0, false⟩, 8)

/-- Bitmap.Set. For n >= 65 the source marks extended, calls Set(1) (which
marks extended again and sets primary bit 63) and sets the secondary bit;
the recursive call is inlined here. -/
def Bitmap.set (b : Bitmap) (fieldNum : Int) : Bitmap :=
  if fieldNum < 1 ∨ 128 < fieldNum then b
  else
    let b1 := if fieldNum == 1 then { b with extended := true } else b
    if fieldNum ≤ 64 then
      { b1 with primary := b1.primary ||| (1 <<< (64 - fieldNum).toNat) }
    else
      { b1 with extended := true,
                primary := b1.primary ||| (1 <<< 63),
                secondary := b1.secondary ||| (1 <<< (128 - fieldNum).toNat) }

/-- Bitmap.Unset. Go clears with the and-not operator x &^ bit, which is
Nat.ldiff on naturals. -/
def Bitmap.unset (b : Bitmap) (fieldNum : Int) : Bitmap :=
  if fieldNum < 1 ∨ 128 < fieldNum then b
  else if fieldNum ≤ 64 then
    { b with primary := Nat.ldiff b.primary (1 <<< (64 - fieldNum).toNat) }
  else
    { b with secondary := Nat.ldiff b.secondary (1 <<< (128 - fieldNum).toNat) }

/-- Bitmap.Bytes: 8 big-endian bytes of primary, plus 8 of secondary when
extended. -/
def Bitmap.bytes (b : Bitmap) : List Nat :=
  if !b.extended then putUint64 b.primary
  else putUint64 b.primary ++ putUint64 b.secondary

/-- Bitmap.PresentFields: set numbers 1..64, then 65..128 when extended. -/
def Bitmap.presentFields (b : Bitmap) : List Int :=
  (((List.range 64).map (fun i => ((i + 1 : Nat) : Int))).filter
      (fun i => b.isSet i))
    ++ (if b.extended then
          (((List.range 64).map (fun i => ((i + 65 : Nat) : Int))).filter
            (fun i => b.isSet i))
        else [])

/-- Bitmap.IsExtended. -/
def Bitmap.isExtended (b : Bitmap) : Bool := b.extended

/-! ## Field accessor (src/pkg/core/interfaces.go Field, field.go Field) -/

/-- The error kinds a field accessor getter produces: the field not
present error, and the strconv parse error for non-numeric data. -/
inductive FieldErr where
  | fieldNotPresent
  | atoiBadInput
deriving DecidableEq

/-- core.Field: data bytes, existence flag, optional field spec, whether a
parser was attached (NewFieldWithSpec) and the lazily populated children
map. Go names the flag exists, which Lean reserves, so it is exist here. -/
inductive FieldS where
  | mk (data : List Nat) (exist : Bool) (fspec : Option FSpec)
      (hasParser : Bool) (children : List (Int × FieldS))

def FieldS.data : FieldS → List Nat
  | .mk d _ _ _ _ => d

def FieldS.exist : FieldS → Bool
  | .mk _ e _ _ _ => e

def FieldS.fspec : FieldS → Option FSpec
  | .mk _ _ sp _ _ => sp

def FieldS.hasParser : FieldS → Bool
  | .mk _ _ _ hp _ => hp

def FieldS.children : FieldS → List (Int × FieldS)
  | .mk _ _ _ _ cs => cs

/-- NewField(data, exists): no spec, no parser, no children. -/
def mkField (data : List Nat) (e : Bool) : FieldS := .mk data e none false []

/-- NewFieldWithSpec(data, exists, fieldSpec, parser). -/
def mkFieldWithSpec (data : List Nat) (e : Bool) (sp : Option FSpec) : FieldS :=
  .mk data e sp true []

/-- The non-existent field literal the source returns from Subfield. -/
def FieldS.absent : FieldS := .mk [] false none false []

/-- strconv.Atoi on all-digit tails: none at the first non-digit byte. -/
def atoiDigits (acc : Nat) : List Nat → Option Nat
  | [] => some acc
  | c :: rest =>
      if 48 ≤ c ∧ c ≤ 57 then atoiDigits (acc * 10 + (c - 48)) rest
      else none

/-- strconv.Atoi: optional sign, then decimal digits; empty or malformed
input is a parse error. The Go 64-bit range error is not modelled; no
claim evaluates Atoi near the integer bounds. -/
def atoi (s : List Nat) : Except FieldErr Int :=
  match s with
  | [] => .error .atoiBadInput
  | 43 :: rest =>
      match rest, atoiDigits 0 rest with
      | _ :: _, some v => .ok (v : Int)
      | _, _ => .error .atoiBadInput
  | 45 :: rest =>
      match rest, atoiDigits 0 rest with
      | _ :: _, some v => .ok (-(v : Int))
      | _, _ => .error .atoiBadInput
  | _ =>
      match atoiDigits 0 s with
      | some v => .ok (v : Int)
      | none => .error .atoiBadInput

/-- Field.Bytes: nil unless the field exists. -/
def FieldS.bytes (f : FieldS) : Option (List Nat) :=
  if !f.exist then none else some f.data

/-- Field.String: empty unless the field exists, else the data bytes. -/
def FieldS.str (f : FieldS) : List Nat :=
  if !f.exist then [] else f.data

/-- Field.IntE: the field not present error, else strconv.Atoi of String. -/
def FieldS.intE (f : FieldS) : Except FieldErr Int :=
  if !f.exist then .error .fieldNotPresent else atoi f.str

/-- Field.Int: IntE with the error dropped (Go returns the zero value). -/
def FieldS.int (f : FieldS) : Int :=
  match f.intE with
  | .ok v => v
  | .error _ => 0

/-- Field.Int64E: strconv.ParseInt(s, 10, 64); same grammar as Atoi. -/
def FieldS.int64E (f : FieldS) : Except FieldErr Int :=
  if !f.exist then .error .fieldNotPresent else atoi f.str

/-- Field.Int64. -/
def FieldS.int64 (f : FieldS) : Int :=
  match f.int64E with
  | .ok v => v
  | .error _ => 0

/-- One lowercase hex digit. -/
def hexDigit (n : Nat) : Nat := if n < 10 then 48 + n else 87 + n

/-- hex.EncodeToString: two lowercase hex chars per byte. -/
def hexEncode (data : List Nat) : List Nat :=
  data.flatMap (fun c => [hexDigit (c / 16), hexDigit (c % 16)])

/-- Field.Hex: empty unless the field exists. -/
def FieldS.hex (f : FieldS) : List Nat :=
  if !f.exist then [] else hexEncode f.data

/-- Field.Len: len(f.data), with no existence check in the source. -/
def FieldS.lenF (f : FieldS) : Nat := f.data.length

/-- Field.Subfield (interfaces.go): absent for a non-existent parent;
cache hit returns the cached child; otherwise, when a spec with children
and a parser are attached and a child spec with the number is found, the
source hits its TODO stub and returns a non-existent field; every other
path also returns a non-existent field. -/
def FieldS.subfield (f : FieldS) (num : Int) : FieldS :=
  if !f.exist then FieldS.absent
  else
    match f.children.lookup num with
    | some child => child
    | none =>
        match f.fspec with
        | some sp =>
            if f.hasParser ∧ 0 < sp.children.length then
              match sp.children.find? (fun cs => cs.number == num) with
              | some _ => FieldS.absent
              | none => FieldS.absent
            else FieldS.absent
        | none => FieldS.absent

/-- Field.SetSubfield: map store children[num] = child. -/
def FieldS.setSubfield (f : FieldS) (num : Int) (child : FieldS) : FieldS :=
  .mk f.data f.exist f.fspec f.hasParser
    ((num, child) :: f.children.filter (fun p => p.1 != num))

/-- Field.HasSubfields: len(children) > 0. -/
def FieldS.hasSubfields (f : FieldS) : Bool := 0 < f.children.length

/-! ## Message (src/pkg/core/message.go) -/

/-- The error kinds Message.Parse produces; field errors keep their
parser error kind under the wrapper. -/
inductive MsgErr where
  | invalidMTI
  | invalidMTIFormat
  | messageTooShort
  | bitmapParseFailed
  | fieldParseFailed (e : ParseErr)
deriving DecidableEq

/-- The state Parse leaves in a Message on success: the MTI bytes, the
bitmap, the cursor cache in parse order, and the final value of the parse
loop offset variable. -/
structure ParsedMsg where
  mti : List Nat
  bitmap : Bitmap
  cursors : List (Int × Cursor)
  finalOffset : Nat
deriving DecidableEq

/-- isValidMTIStructure: exactly 4 bytes, all ASCII digits. -/
def isValidMTIStructure (mti : List Nat) : Bool :=
  mti.length == 4 && mti.all (fun c => 48 ≤ c && c ≤ 57)

/-- The loop of parseAllFields over the present field numbers: skip field
1 and fields missing from the spec, locate every other field at the
running offset, record its cursor, continue at cursor.NextOffset(). -/
def parseFields (s : SpecMap) (buf : List Nat) :
    List Int → Nat → Except ParseErr (List (Int × Cursor) × Nat)
  | [], offset => .ok ([], offset)
  | f :: rest, offset =>
      if f == 1 then parseFields s buf rest offset
      else
        match lookupField s f with
        | none => parseFields s buf rest offset
        | some _ =>
            match ParseField s buf f offset with
            | .error e => .error e
            | .ok c =>
                match parseFields s buf rest c.nextOffset with
                | .error e => .error e
                | .ok (cs, stop) => .ok ((f, c) :: cs, stop)

/-- The offset where parseAllFields starts: MTI plus bitmap length. -/
def postBitmapOffset (bm : Bitmap) : Nat :=
  4 + (if bm.isExtended then 16 else 8)

/-- Message.Parse: MTI length and digit checks, bitmap construction from
buf[4:] (the consumed count is discarded by the source), then the eager
field parsing loop. -/
def msgParse (buf : List Nat) (s : SpecMap) : Except MsgErr ParsedMsg :=
  if buf.length < 4 then .error .invalidMTI
  else if !isValidMTIStructure (buf.take 4) then .error .invalidMTIFormat
  else if buf.length < 12 then .error .messageTooShort
  else
    match NewBitmap (buf.drop 4) with
    | .error _ => .error .bitmapParseFailed
    | .ok (bm, _) =>
        match parseFields s buf bm.presentFields (postBitmapOffset bm) with
        | .error e => .error (.fieldParseFailed e)
        | .ok (cs, stop) => .ok ⟨buf.take 4, bm, cs, stop⟩

/-- Message.MTI: NewField([]byte(m.mti), m.mti != ""). -/
def msgMTI (pm : ParsedMsg) : FieldS := mkField pm.mti (!pm.mti.isEmpty)

/-- Message.Field: absent outside [0,128]; MTI for 0; absent when the
bitmap bit is clear, no cursor is cached, or Extract returns nil; else a
spec-aware field over the extracted slice. -/
def msgField (buf : List Nat) (s : SpecMap) (pm : ParsedMsg) (fieldNum : Int) :
    FieldS :=
  if fieldNum < 0 ∨ 128 < fieldNum then mkField [] false
  else if fieldNum == 0 then msgMTI pm
  else if !pm.bitmap.isSet fieldNum then mkField [] false
  else
    match pm.cursors.lookup fieldNum with
    | none => mkField [] false
    | some c =>
        match c.extract buf with
        | none => mkField [] false
        | some data => mkFieldWithSpec data true (lookupField s fieldNum)

/-- Message.HasField: true for 0, else the bitmap bit. -/
def msgHasField (pm : ParsedMsg) (fieldNum : Int) : Bool :=
  if fieldNum == 0 then true else pm.bitmap.isSet fieldNum

/-! ## Minimal BER-TLV (src/pkg/encoding/binary.go) -/

/-- ErrTLVMalformed, the single TLV error kind. -/
inductive TLVErr where
  | malformed
deriving DecidableEq

/-- ParseMinimalTLV: tag of 1 byte, or 2 bytes when the low five bits of
the first byte are all ones; a single length byte taken at face value;
the declared number of value bytes; error on any truncation. The result
is (tag, length, value, next offset). -/
def ParseMinimalTLV (data : List Nat) :
    Except TLVErr (List Nat × Nat × List Nat × Nat) :=
  if data.length < 2 then .error .malformed
  else
    let tagLen := if data.getD 0 0 &&& 31 == 31 then 2 else 1
    if tagLen == 2 ∧ data.length < 3 then .error .malformed
    else if data.length < tagLen + 1 then .error .malformed
    else
      let len := data.getD tagLen 0
      if data.length < tagLen + 1 + len then .error .malformed
      else .ok (data.take tagLen, len,
                (data.drop (tagLen + 1)).take len, tagLen + 1 + len)

/-- EncodeMinimalTLV: tag, byte(len(value)), value. -/
def EncodeMinimalTLV (tag value : List Nat) : List Nat :=
  tag ++ [value.length % 256] ++ value

/-- The read loop of tlvEncoder.Decode, with fuel standing in for the Go
while loop; each iteration consumes at least 2 bytes, so fuel equal to
len(data)+1 can never run out before read reaches len(data). -/
def tlvDecodeAux (data : List Nat) :
    Nat → Nat → List Nat → Except TLVErr (List Nat × Nat)
  | 0, read, out => .ok (out, read)
  | fuel + 1, read, out =>
      if data.length ≤ read then .ok (out, read)
      else
        match ParseMinimalTLV (data.drop read) with
        | .error _ => .error .malformed
        | .ok (tag, _, value, next) =>
            tlvDecodeAux data fuel (read + next)
              (out ++ EncodeMinimalTLV tag value)

/-- tlvEncoder.Decode: empty input decodes to empty; otherwise parse and
re-emit triplets until the whole input is consumed. The Go incomplete read
count on error is not kept; only the error kind matters to the claims. -/
def tlvDecode (data : List Nat) : Except TLVErr (List Nat × Nat) :=
  if data.length == 0 then .ok ([], 0)
  else tlvDecodeAux data (data.length + 1) 0 []

/-! ## Luhn rule (src/pkg/core/validator.go) -/

/-- The business rule error kind for a failed Luhn check. -/
inductive RuleErr where
  | invalidPANChecksum
deriving DecidableEq

/-- The loop of luhnCheck: false at the first non-digit; a digit at index
i is doubled when i % 2 equals the parity, reduced by 9 above 9, and
added to the running sum; at the end the sum must be divisible by 10. -/
def luhnLoop (parity : Nat) : Nat → Nat → List Nat → Bool
  | _, sum, [] => sum % 10 == 0
  | i, sum, c :: rest =>
      if c < 48 ∨ 57 < c then false
      else
        let d := c - 48
        let d1 := if i % 2 == parity then
            (if d * 2 > 9 then d * 2 - 9 else d * 2) else d
        luhnLoop parity (i + 1) (sum + d1) rest

/-- luhnCheck: parity is len(number) % 2; then the indexed loop. -/
def luhnCheck (number : List Nat) : Bool :=
  luhnLoop (number.length % 2) 0 0 number

/-- LuhnCheckRule.Check: skip when msg.HasField is false, else run
luhnCheck on msg.Field(n).String(). -/
def luhnRuleCheck (buf : List Nat) (s : SpecMap) (pm : ParsedMsg)
    (fieldNum : Int) : Except RuleErr Unit :=
  if !msgHasField pm fieldNum then .ok ()
  else if luhnCheck (msgField buf s pm fieldNum).str then .ok ()
  else .error .invalidPANChecksum

/-! ## Shared concrete instances used by witnesses and counterexamples -/

/-- A one-field spec: field 2 is LL with max length 19 (the PAN field of
the spec scenarios). -/
def specF2LL : SpecMap := [(2, .mk 2 .ll 0 19 [])]

/-! ## Derived definitions, claim-side definitions and concrete
instances used by the theorems below -/

/-- The number denoted by a string of ASCII decimal digits, most
significant first. -/
def decimalValue (s : List Nat) : Nat :=
  s.foldl (fun a c => a * 10 + (c - 48)) 0

/-- The length-indicator digit count the locator consumes before the
data bytes of a field: 0 for fixed and bitmap kinds, 1..3 for variable
kinds, 0 when the field is not in the spec. -/
def dOf (s : SpecMap) (fieldNum : Int) : Nat :=
  match lookupField s fieldNum with
  | some fs => fs.ftype.lengthIndicatorDigits
  | none => 0

/-- The start of the byte extent a recorded field consumed: its cursor
start minus its length-indicator digits. -/
def exLo (s : SpecMap) (fc : Int × Cursor) : Nat := fc.2.Start - dOf s fc.1

/-- Position pos lies in the byte extent of the recorded field fc:
length indicator plus data bytes. -/
def extentMem (s : SpecMap) (pos : Nat) (fc : Int × Cursor) : Prop :=
  exLo s fc ≤ pos ∧ pos < fc.2.End

/-- The facts the parse loop guarantees for one recorded entry. -/
def entryFacts (s : SpecMap) (buf : List Nat) (offset stop : Nat)
    (fc : Int × Cursor) : Prop :=
  offset ≤ exLo s fc ∧ exLo s fc + dOf s fc.1 = fc.2.Start ∧
  fc.2.Start ≤ fc.2.End ∧ fc.2.End ≤ stop ∧ fc.2.End ≤ buf.length ∧
  fc.1 ≠ 1

/-- Position pos lies inside the data slice (Bytes range) of some
recorded field of the parsed message. -/
def coveredByFieldBytes (pm : ParsedMsg) (pos : Nat) : Bool :=
  pm.cursors.any (fun fc => fc.2.Start ≤ pos && pos < fc.2.End)

/-- The counterexample message for C4: MTI 0200, primary bitmap with only
field 2 set, then the LL field 02 with data 12. -/
def bufC4 : List Nat :=
  [48, 50, 48, 48, 64, 0, 0, 0, 0, 0, 0, 0, 48, 50, 49, 50]

def pmC4 : ParsedMsg :=
  ⟨[48, 50, 48, 48], ⟨4611686018427387904, 0, false⟩, [(2, ⟨14, 16⟩)], 16⟩

/-- The counterexample message for C5: MTI 0200, primary bitmap with only
field 2 set, then the LL field with length indicator 00 and no data. -/
def bufC5 : List Nat := [48, 50, 48, 48, 64, 0, 0, 0, 0, 0, 0, 0, 48, 48]

def pmC5 : ParsedMsg :=
  ⟨[48, 50, 48, 48], ⟨4611686018427387904, 0, false⟩, [(2, ⟨14, 14⟩)], 14⟩

/-- The invariant claimed for bitmaps: the extended flag agrees with the
primary-bitmap bit for field 1. -/
def bitmapInv (b : Bitmap) : Prop := b.extended = b.isSet 1

/-- A Set or Unset operation on a bitmap. -/
inductive BmOp where
  | set (n : Int)
  | unset (n : Int)
deriving DecidableEq

def applyOp (b : Bitmap) : BmOp → Bitmap
  | .set n => b.set n
  | .unset n => b.unset n

def applyOps (b : Bitmap) (ops : List BmOp) : Bitmap := ops.foldl applyOp b

/-- Witness for the amended C3 at a concrete operation sequence. -/
def opsC3W : List BmOp := [BmOp.set 65, BmOp.unset 70, BmOp.set 2]

/-- A parent accessor as Message.Field would build it: existing, carrying
a composite field spec (number 48 with one child numbered 1) and a
parser, with data bytes and an empty child cache. -/
def parentC8 : FieldS :=
  mkFieldWithSpec [65, 66, 67, 68] true
    (some (.mk 48 .fixed 4 0 [.mk 1 .fixed 2 0 []]))

/-- The contribution of the digit at index p.1 with byte value p.2, as
the claim words it: double when the index parity matches, subtract 9 when
the doubled value exceeds 9. -/
def luhnDigitTerm (parity : Nat) (p : Nat × Nat) : Nat :=
  let d := p.2 - 48
  if p.1 % 2 == parity then (if d * 2 > 9 then d * 2 - 9 else d * 2) else d

/-- The Luhn acceptance condition exactly as the claim words it: every
character is an ASCII digit and the parity-weighted sum over the indexed
digits is divisible by 10. -/
def luhnClaimHolds (s : List Nat) : Prop :=
  (∀ c ∈ s, 48 ≤ c ∧ c ≤ 57) ∧
  ((s.enum.map (luhnDigitTerm (s.length % 2))).sum) % 10 = 0

instance decLuhnClaimHolds (s : List Nat) : Decidable (luhnClaimHolds s) := by
  unfold luhnClaimHolds
  infer_instance

/-- The PAN digit strings of the spec scenario, as ASCII bytes. -/
def panPass : List Nat := [52, 53, 51, 50, 48, 49, 53, 49, 49, 50, 56, 51, 48, 51, 54, 54]

def panFail : List Nat := [52, 53, 51, 50, 48, 49, 53, 49, 49, 50, 56, 51, 48, 51, 54, 55]

def panShort : List Nat := [49, 50, 51]

/-- A parsed message whose field 2 holds the passing PAN: MTI 0200,
primary bitmap with only bit 2 set, then the LL field 16 digits long. -/
def bufC9W : List Nat :=
  [48, 50, 48, 48, 64, 0, 0, 0, 0, 0, 0, 0, 49, 54] ++ panPass

def pmC9W : ParsedMsg :=
  ⟨[48, 50, 48, 48], ⟨4611686018427387904, 0, false⟩, [(2, ⟨14, 30⟩)], 30⟩

/-- An input whose single triplet has tag 0x5A and length byte 0x81 (high
bit set, the long-form marker), followed by 129 value bytes. -/
def tlvLongFormInput : List Nat := 90 :: 129 :: List.replicate 129 0

/-- A triplet in the shape the amended C6 describes, given as its tag
bytes, its declared length, and its value bytes: the tag is one byte with
the low five bits not all ones, or two bytes when they are; the value has
exactly the declared length; the length fits one byte (any value up to
255, the high bit included). -/
def goodTriplet (tr : List Nat × Nat × List Nat) : Prop :=
  ((∃ t, tr.1 = [t] ∧ (t &&& 31 == 31) = false) ∨
   (∃ t0 t1, tr.1 = [t0, t1] ∧ (t0 &&& 31 == 31) = true)) ∧
  tr.2.2.length = tr.2.1 ∧ tr.2.1 < 256

/-- The wire bytes of a triplet: tag, length byte, value. -/
def tripletBytes (tr : List Nat × Nat × List Nat) : List Nat :=
  tr.1 ++ tr.2.1 :: tr.2.2

/-- The wire bytes of a flat sequence of triplets. -/
def streamBytes : List (List Nat × Nat × List Nat) → List Nat
  | [] => []
  | tr :: rest => tripletBytes tr ++ streamBytes rest

/-- A truncated triplet in the sense of the amended C6: header bytes
missing (a lone tag byte, or a two-byte tag with no length byte) or the
declared number of value bytes missing, for either tag width. -/
def truncatedTriplet (bad : List Nat) : Prop :=
  bad.length = 1 ∨
  (∃ t0 t1, bad = [t0, t1] ∧ (t0 &&& 31 == 31) = true) ∨
  (∃ t l v, bad = t :: l :: v ∧ (t &&& 31 == 31) = false ∧ v.length < l) ∨
  (∃ t0 t1 l v, bad = t0 :: t1 :: l :: v ∧ (t0 &&& 31 == 31) = true ∧
    v.length < l)

/-- Witness triplets for C6: a one-byte tag with a high-bit length of
130, then a two-byte tag triplet. -/
def trsC6W : List (List Nat × Nat × List Nat) :=
  [([90], 130, List.replicate 130 7), ([159, 1], 2, [5, 6])]

/-- A truncated witness triplet: declared length 5, two value bytes. -/
def badC6W : List Nat := [90, 5, 7, 7]

/-! ## Helper lemmas -/

theorem land_shift_bne (x k : Nat) : (x &&& (1 <<< k) != 0) = x.testBit k := by
  rw [Nat.one_shiftLeft, Nat.and_two_pow]
  cases h : x.testBit k
  · simp
  · simp [(Nat.two_pow_pos k).ne']

theorem testBit63_of_ge (n : Nat) (h1 : 2 ^ 63 ≤ n) (h2 : n < 2 ^ 64) :
    n.testBit 63 = true := by
  rw [Nat.testBit_to_div_mod]
  have e1 : (2 : Nat) ^ 63 = 9223372036854775808 := by norm_num
  have e2 : (2 : Nat) ^ 64 = 18446744073709551616 := by norm_num
  rw [e1] at h1
  rw [e2] at h2
  have hq : n / 9223372036854775808 = 1 := by omega
  simp [hq]

/-- IsSet(1) reads bit 63 of the primary word. -/
theorem isSet_one_eq (b : Bitmap) : b.isSet 1 = b.primary.testBit 63 := by
  rw [Bitmap.isSet, if_neg (by decide), if_pos (by decide),
    show ((64 : Int) - 1).toNat = 63 from by decide]
  exact land_shift_bne b.primary 63

/-! ## Claims C1 and C10: the field locator -/

theorem parseIntGo_ok (s : List Nat) : ∀ acc,
    (∀ c ∈ s, 48 ≤ c ∧ c ≤ 57) →
    parseIntGo acc s = .ok (s.foldl (fun a c => a * 10 + (c - 48)) acc) := by
  induction s with
  | nil => intro acc _; rfl
  | cons c rest ih =>
      intro acc h
      have hc := h c (by simp)
      rw [parseIntGo, if_neg (by omega), List.foldl_cons]
      exact ih _ (fun x hx => h x (List.mem_cons_of_mem _ hx))

theorem parseIntGo_err (s : List Nat) : ∀ acc,
    (∃ c ∈ s, c < 48 ∨ 57 < c) →
    parseIntGo acc s = .error .invalidDigit := by
  induction s with
  | nil => intro acc h; simp at h
  | cons c rest ih =>
      intro acc h
      by_cases hc : c < 48 ∨ 57 < c
      · rw [parseIntGo, if_pos hc]
      · rw [parseIntGo, if_neg hc]
        apply ih
        rcases h with ⟨x, hx, hxr⟩
        rcases List.mem_cons.mp hx with rfl | hx
        · exact absurd hxr hc
        · exact ⟨x, hx, hxr⟩

theorem parseInt_ok (s : List Nat) (h : ∀ c ∈ s, 48 ≤ c ∧ c ≤ 57) :
    parseInt s = .ok (decimalValue s) :=
  parseIntGo_ok s 0 h

theorem parseInt_err (s : List Nat) (h : ∃ c ∈ s, c < 48 ∨ 57 < c) :
    parseInt s = .error .invalidDigit :=
  parseIntGo_err s 0 h

/-- Counterexample to C1 as stated: with field 2 declared LL and the
one-byte buffer holding an ASCII digit, the offset 0 satisfies
0 <= offset < buffer length, yet ParseField returns the distinct
insufficient-length-indicator error, which is none of the outcomes the
claim enumerates (invalid digit, length exceeds max, offset exceeds
buffer, or a cursor). -/
theorem c1_counterexample :
    ParseField specF2LL [49] 2 0 = .error .insufficientLengthIndicator ∧
    ParseErr.insufficientLengthIndicator ≠ ParseErr.invalidDigit ∧
    ParseErr.insufficientLengthIndicator ≠ ParseErr.fieldLengthExceedsMax ∧
    ParseErr.insufficientLengthIndicator ≠ ParseErr.offsetExceedsBufferLen := by
  exact ⟨rfl, by decide, by decide, by decide⟩

/-- Claim C1, amended: for a spec entry of kind L, LL or LLL with d
indicator digits and an offset with 0 <= offset < buffer length,
ParseField fails with the insufficient-length-indicator error when
offset + d exceeds the buffer; otherwise it parses the d bytes at
buffer[offset..offset+d] as ASCII decimal digits into n, failing with the
invalid-digit error if any byte is outside the digits, with the
length-exceeds-max error if n > max_length, with the offset-exceeds-buffer
error if offset + d + n > buffer length, and otherwise returns the cursor
[offset+d, offset+d+n). -/
theorem c1_parseField_variable (s : SpecMap) (buf : List Nat)
    (fieldNum : Int) (offset : Nat) (fs : FSpec)
    (hf : lookupField s fieldNum = some fs)
    (hvar : fs.ftype.isVariable = true) (hoff : offset < buf.length) :
    (buf.length < offset + fs.ftype.lengthIndicatorDigits →
      ParseField s buf fieldNum offset = .error .insufficientLengthIndicator) ∧
    (offset + fs.ftype.lengthIndicatorDigits ≤ buf.length →
      ((∃ c ∈ (buf.drop offset).take fs.ftype.lengthIndicatorDigits,
          c < 48 ∨ 57 < c) →
        ParseField s buf fieldNum offset = .error .invalidDigit) ∧
      ((∀ c ∈ (buf.drop offset).take fs.ftype.lengthIndicatorDigits,
          48 ≤ c ∧ c ≤ 57) →
        (fs.maxLength <
            decimalValue
              ((buf.drop offset).take fs.ftype.lengthIndicatorDigits) →
          ParseField s buf fieldNum offset = .error .fieldLengthExceedsMax) ∧
        (decimalValue ((buf.drop offset).take fs.ftype.lengthIndicatorDigits)
            ≤ fs.maxLength →
          (buf.length < offset + fs.ftype.lengthIndicatorDigits +
              decimalValue
                ((buf.drop offset).take fs.ftype.lengthIndicatorDigits) →
            ParseField s buf fieldNum offset =
              .error .offsetExceedsBufferLen) ∧
          (offset + fs.ftype.lengthIndicatorDigits +
              decimalValue
                ((buf.drop offset).take fs.ftype.lengthIndicatorDigits)
              ≤ buf.length →
            ParseField s buf fieldNum offset =
              .ok ⟨offset + fs.ftype.lengthIndicatorDigits,
                   offset + fs.ftype.lengthIndicatorDigits +
                     decimalValue
                       ((buf.drop offset).take
                         fs.ftype.lengthIndicatorDigits)⟩)))) := by
  have hdisp : ParseField s buf fieldNum offset = parseVariable buf fs offset := by
    simp only [ParseField, hf]
    rw [if_neg (by omega)]
    cases ht : fs.ftype
    · rw [ht] at hvar; cases hvar
    · rfl
    · rfl
    · rfl
    · rw [ht] at hvar; cases hvar
  rw [hdisp]
  constructor
  · intro hshort
    rw [parseVariable]
    rw [if_pos hshort]
  · intro hlong
    refine ⟨?_, ?_⟩
    · intro hbad
      rw [parseVariable, if_neg (by omega), parseInt_err _ hbad]
    · intro hdig
      have heq : parseVariable buf fs offset =
          (if fs.maxLength <
              decimalValue
                ((buf.drop offset).take fs.ftype.lengthIndicatorDigits) then
            .error .fieldLengthExceedsMax
          else if buf.length < offset + fs.ftype.lengthIndicatorDigits +
              decimalValue
                ((buf.drop offset).take fs.ftype.lengthIndicatorDigits) then
            .error .offsetExceedsBufferLen
          else .ok ⟨offset + fs.ftype.lengthIndicatorDigits,
                    offset + fs.ftype.lengthIndicatorDigits +
                      decimalValue
                        ((buf.drop offset).take
                          fs.ftype.lengthIndicatorDigits)⟩) := by
        rw [parseVariable, if_neg (by omega), parseInt_ok _ hdig]
      rw [heq]
      refine ⟨?_, ?_⟩
      · intro hmax
        rw [if_pos hmax]
      · intro hmaxle
        rw [if_neg (by omega)]
        refine ⟨?_, ?_⟩
        · intro hover
          rw [if_pos hover]
        · intro hfit
          rw [if_neg (by omega)]

/-- Witness for the amended C1 at a concrete well-formed LL field. -/
theorem c1_parseField_variable_witness :
    lookupField specF2LL 2 = some (.mk 2 .ll 0 19 []) ∧
    (0 : Nat) < ([48, 50, 49, 50] : List Nat).length ∧
    ParseField specF2LL [48, 50, 49, 50] 2 0 = .ok ⟨2, 4⟩ :=
  ⟨rfl, by decide,
    by
      have h := (((c1_parseField_variable specF2LL [48, 50, 49, 50] 2 0
        (.mk 2 .ll 0 19 []) rfl rfl (by decide)).2 (by decide)).2
          (by decide)).2 (by decide)
      exact (h.2 (by decide))⟩

/-- The facts a successful parseVariable provides about its cursor. -/
theorem parseVariable_ok_facts (buf : List Nat) (fs : FSpec) (offset : Nat)
    (c : Cursor) (h : parseVariable buf fs offset = .ok c) :
    c.Start = offset + fs.ftype.lengthIndicatorDigits ∧
    c.Start ≤ c.End ∧ c.End ≤ buf.length := by
  rw [parseVariable] at h
  by_cases h1 : buf.length < offset + fs.ftype.lengthIndicatorDigits
  · rw [if_pos h1] at h; cases h
  · rw [if_neg h1] at h
    cases hp : parseInt ((buf.drop offset).take fs.ftype.lengthIndicatorDigits) with
    | error e => rw [hp] at h; cases h
    | ok n =>
        rw [hp] at h
        replace h : (if fs.maxLength < n then
            (.error .fieldLengthExceedsMax : Except ParseErr Cursor)
          else if buf.length <
              offset + fs.ftype.lengthIndicatorDigits + n then
            .error .offsetExceedsBufferLen
          else .ok ⟨offset + fs.ftype.lengthIndicatorDigits,
                    offset + fs.ftype.lengthIndicatorDigits + n⟩)
            = .ok c := h
        by_cases h2 : fs.maxLength < n
        · rw [if_pos h2] at h; cases h
        · rw [if_neg h2] at h
          by_cases h3 : buf.length <
              offset + fs.ftype.lengthIndicatorDigits + n
          · rw [if_pos h3] at h; cases h
          · rw [if_neg h3] at h
            cases h
            refine ⟨rfl, ?_, ?_⟩
            · show offset + fs.ftype.lengthIndicatorDigits ≤
                offset + fs.ftype.lengthIndicatorDigits + n
              omega
            · show offset + fs.ftype.lengthIndicatorDigits + n ≤ buf.length
              omega

/-- The per-call facts every successful ParseField provides; shared by
the C10 theorem and the parse loop induction of C4. -/
theorem parseField_ok_facts (s : SpecMap) (buf : List Nat) (fieldNum : Int)
    (offset : Nat) (c : Cursor)
    (h : ParseField s buf fieldNum offset = .ok c) :
    ∃ fs, lookupField s fieldNum = some fs ∧
      c.Start = offset + fs.ftype.lengthIndicatorDigits ∧
      c.Start ≤ c.End ∧ c.End ≤ buf.length := by
  cases hf : lookupField s fieldNum with
  | none =>
      simp only [ParseField, hf] at h
      cases h
  | some fs =>
      simp only [ParseField, hf] at h
      refine ⟨fs, rfl, ?_⟩
      by_cases hoff : buf.length ≤ offset
      · rw [if_pos hoff] at h; cases h
      · rw [if_neg hoff] at h
        cases ht : fs.ftype <;> simp only [ht] at h
        · rw [parseFixed] at h
          by_cases hb : buf.length < offset + fs.length
          · rw [if_pos hb] at h; cases h
          · rw [if_neg hb] at h
            cases h
            refine ⟨rfl, ?_, ?_⟩
            · show offset ≤ offset + fs.length
              omega
            · show offset + fs.length ≤ buf.length
              omega
        · have hv := parseVariable_ok_facts buf fs offset c h
          rw [ht] at hv
          exact hv
        · have hv := parseVariable_ok_facts buf fs offset c h
          rw [ht] at hv
          exact hv
        · have hv := parseVariable_ok_facts buf fs offset c h
          rw [ht] at hv
          exact hv
        · rw [parseBitmapField] at h
          by_cases hb : buf.length < offset + fs.length
          · rw [if_pos hb] at h; cases h
          · rw [if_neg hb] at h
            cases h
            refine ⟨rfl, ?_, ?_⟩
            · show offset ≤ offset + fs.length
              omega
            · show offset + fs.length ≤ buf.length
              omega

/-- Claim C10: a cursor returned by ParseField without error satisfies
offset <= Start <= End <= buffer length, so NextOffset never exceeds the
buffer length and Extract on the same buffer stays in bounds, returning
the exact sub-slice whenever the cursor is non-empty. -/
theorem c10_cursor_bounds (s : SpecMap) (buf : List Nat) (fieldNum : Int)
    (offset : Nat) (c : Cursor)
    (h : ParseField s buf fieldNum offset = .ok c) :
    offset ≤ c.Start ∧ c.Start ≤ c.End ∧ c.End ≤ buf.length ∧
    c.nextOffset ≤ buf.length ∧
    (c.Start < c.End →
      c.extract buf = some ((buf.drop c.Start).take (c.End - c.Start))) := by
  obtain ⟨fs, -, h1, h2, h3⟩ := parseField_ok_facts s buf fieldNum offset c h
  refine ⟨by omega, h2, h3, ?_, ?_⟩
  · rw [Cursor.nextOffset]; exact h3
  · intro hne
    rw [Cursor.extract, if_neg (by omega)]

/-- Witness for C10 at the same concrete well-formed LL field. -/
theorem c10_cursor_bounds_witness :
    ParseField specF2LL [48, 50, 49, 50] 2 0 = .ok ⟨2, 4⟩ ∧
    ((0 : Nat) ≤ (2 : Nat) ∧ (2 : Nat) ≤ 4 ∧ (4 : Nat) ≤ 4 ∧
      Cursor.nextOffset ⟨2, 4⟩ ≤ 4 ∧
      Cursor.extract ⟨2, 4⟩ [48, 50, 49, 50] = some [49, 50]) :=
  ⟨by decide,
    by
      have h := c10_cursor_bounds specF2LL [48, 50, 49, 50] 2 0 ⟨2, 4⟩
        (by decide)
      refine ⟨h.1, h.2.1, h.2.2.1, h.2.2.2.1, ?_⟩
      have he := h.2.2.2.2 (by decide)
      simpa using he⟩

/-! ## Claim C2: bitmap byte round-trip -/

theorem exists_eight (b : List Nat) (h : b.length = 8) :
    ∃ a0 a1 a2 a3 a4 a5 a6 a7, b = [a0, a1, a2, a3, a4, a5, a6, a7] := by
  match b, h with
  | [a0, a1, a2, a3, a4, a5, a6, a7], _ =>
      exact ⟨a0, a1, a2, a3, a4, a5, a6, a7, rfl⟩

theorem beUint64_eight (a0 a1 a2 a3 a4 a5 a6 a7 : Nat) :
    beUint64 [a0, a1, a2, a3, a4, a5, a6, a7] =
      ((((((a0 * 256 + a1) * 256 + a2) * 256 + a3) * 256 + a4) * 256 + a5)
        * 256 + a6) * 256 + a7 := by
  show (((((((0 * 256 + a0) * 256 + a1) * 256 + a2) * 256 + a3) * 256 + a4)
      * 256 + a5) * 256 + a6) * 256 + a7 = _
  ring

theorem putUint64_eight (a0 a1 a2 a3 a4 a5 a6 a7 : Nat)
    (h0 : a0 < 256) (h1 : a1 < 256) (h2 : a2 < 256) (h3 : a3 < 256)
    (h4 : a4 < 256) (h5 : a5 < 256) (h6 : a6 < 256) (h7 : a7 < 256) :
    putUint64 (beUint64 [a0, a1, a2, a3, a4, a5, a6, a7]) =
      [a0, a1, a2, a3, a4, a5, a6, a7] := by
  rw [beUint64_eight]
  simp only [putUint64, Nat.shiftRight_eq_div_pow, List.cons.injEq, and_true]
  norm_num
  refine ⟨?_, ?_, ?_, ?_, ?_, ?_, ?_, ?_⟩ <;> omega

theorem beUint64_eight_lt (a0 a1 a2 a3 a4 a5 a6 a7 : Nat)
    (h0 : a0 < 256) (h1 : a1 < 256) (h2 : a2 < 256) (h3 : a3 < 256)
    (h4 : a4 < 256) (h5 : a5 < 256) (h6 : a6 < 256) (h7 : a7 < 256) :
    beUint64 [a0, a1, a2, a3, a4, a5, a6, a7] < 2 ^ 64 := by
  rw [beUint64_eight]
  norm_num
  omega

/-- Claim C2: an 8-byte buffer whose first byte has a clear high bit
round-trips through NewBitmap with 8 bytes consumed, and a 16-byte buffer
whose first byte has a set high bit round-trips with 16 bytes consumed. -/
theorem c2_bitmap_roundtrip (b : List Nat) (hb : ∀ x ∈ b, x < 256) :
    (b.length = 8 → b.getD 0 0 < 128 →
      ∃ bm, NewBitmap b = .ok (bm, 8) ∧ bm.bytes = b) ∧
    (b.length = 16 → 128 ≤ b.getD 0 0 →
      ∃ bm, NewBitmap b = .ok (bm, 16) ∧ bm.bytes = b) := by
  constructor
  · intro hlen hhead
    obtain ⟨a0, a1, a2, a3, a4, a5, a6, a7, rfl⟩ := exists_eight b hlen
    have h0 : a0 < 256 := hb a0 (by simp)
    have h1 : a1 < 256 := hb a1 (by simp)
    have h2 : a2 < 256 := hb a2 (by simp)
    have h3 : a3 < 256 := hb a3 (by simp)
    have h4 : a4 < 256 := hb a4 (by simp)
    have h5 : a5 < 256 := hb a5 (by simp)
    have h6 : a6 < 256 := hb a6 (by simp)
    have h7 : a7 < 256 := hb a7 (by simp)
    have hhead0 : a0 < 128 := by simpa using hhead
    have htake : List.take 8 [a0, a1, a2, a3, a4, a5, a6, a7]
        = [a0, a1, a2, a3, a4, a5, a6, a7] := rfl
    have hset : (⟨beUint64 (List.take 8 [a0, a1, a2, a3, a4, a5, a6, a7]),
        0, false⟩ : Bitmap).isSet 1 = false := by
      rw [isSet_one_eq]
      apply Nat.testBit_eq_false_of_lt
      show beUint64 (List.take 8 [a0, a1, a2, a3, a4, a5, a6, a7]) < 2 ^ 63
      rw [htake, beUint64_eight]
      norm_num
      omega
    refine ⟨⟨beUint64 (List.take 8 [a0, a1, a2, a3, a4, a5, a6, a7]),
      0, false⟩, ?_, ?_⟩
    · rw [NewBitmap, if_neg (by simp), hset]
      simp
    · rw [Bitmap.bytes]
      simp only [Bool.not_false, if_true, if_pos]
      rw [htake]
      exact putUint64_eight a0 a1 a2 a3 a4 a5 a6 a7 h0 h1 h2 h3 h4 h5 h6 h7
  · intro hlen hhead
    have hl1 : (b.take 8).length = 8 := by
      rw [List.length_take]
      omega
    have hl2 : (b.drop 8).length = 8 := by
      rw [List.length_drop]
      omega
    obtain ⟨a0, a1, a2, a3, a4, a5, a6, a7, he1⟩ := exists_eight _ hl1
    obtain ⟨a8, a9, a10, a11, a12, a13, a14, a15, he2⟩ := exists_eight _ hl2
    have hb' : b = [a0, a1, a2, a3, a4, a5, a6, a7]
        ++ [a8, a9, a10, a11, a12, a13, a14, a15] := by
      rw [← he1, ← he2, List.take_append_drop]
    subst hb'
    have h0 : a0 < 256 := hb a0 (by simp)
    have h1 : a1 < 256 := hb a1 (by simp)
    have h2 : a2 < 256 := hb a2 (by simp)
    have h3 : a3 < 256 := hb a3 (by simp)
    have h4 : a4 < 256 := hb a4 (by simp)
    have h5 : a5 < 256 := hb a5 (by simp)
    have h6 : a6 < 256 := hb a6 (by simp)
    have h7 : a7 < 256 := hb a7 (by simp)
    have h8 : a8 < 256 := hb a8 (by simp)
    have h9 : a9 < 256 := hb a9 (by simp)
    have h10 : a10 < 256 := hb a10 (by simp)
    have h11 : a11 < 256 := hb a11 (by simp)
    have h12 : a12 < 256 := hb a12 (by simp)
    have h13 : a13 < 256 := hb a13 (by simp)
    have h14 : a14 < 256 := hb a14 (by simp)
    have h15 : a15 < 256 := hb a15 (by simp)
    have hhead0 : 128 ≤ a0 := by simpa using hhead
    have htake : List.take 8 ([a0, a1, a2, a3, a4, a5, a6, a7]
        ++ [a8, a9, a10, a11, a12, a13, a14, a15])
        = [a0, a1, a2, a3, a4, a5, a6, a7] := List.take_left' rfl
    have hdrop : List.drop 8 ([a0, a1, a2, a3, a4, a5, a6, a7]
        ++ [a8, a9, a10, a11, a12, a13, a14, a15])
        = [a8, a9, a10, a11, a12, a13, a14, a15] := List.drop_left' rfl
    have hset : (⟨beUint64 (List.take 8 ([a0, a1, a2, a3, a4, a5, a6, a7]
        ++ [a8, a9, a10, a11, a12, a13, a14, a15])), 0, false⟩ : Bitmap).isSet 1
        = true := by
      rw [isSet_one_eq, htake]
      apply testBit63_of_ge
      · rw [beUint64_eight]
        norm_num
        omega
      · exact beUint64_eight_lt a0 a1 a2 a3 a4 a5 a6 a7
          h0 h1 h2 h3 h4 h5 h6 h7
    refine ⟨⟨beUint64 (List.take 8 ([a0, a1, a2, a3, a4, a5, a6, a7]
        ++ [a8, a9, a10, a11, a12, a13, a14, a15])),
      beUint64 (List.take 8 (List.drop 8 ([a0, a1, a2, a3, a4, a5, a6, a7]
        ++ [a8, a9, a10, a11, a12, a13, a14, a15]))), true⟩, ?_, ?_⟩
    · rw [NewBitmap, if_neg (by simp), hset]
      simp
    · rw [Bitmap.bytes]
      simp only [Bool.not_true, Bool.false_eq_true, if_false]
      rw [htake, hdrop, show List.take 8 [a8, a9, a10, a11, a12, a13, a14, a15]
        = [a8, a9, a10, a11, a12, a13, a14, a15] from rfl]
      rw [putUint64_eight a0 a1 a2 a3 a4 a5 a6 a7 h0 h1 h2 h3 h4 h5 h6 h7,
        putUint64_eight a8 a9 a10 a11 a12 a13 a14 a15
          h8 h9 h10 h11 h12 h13 h14 h15]

/-- Witness for C2 at two concrete buffers of each shape. -/
theorem c2_bitmap_roundtrip_witness :
    ((∀ x ∈ ([64, 0, 0, 0, 0, 0, 0, 0] : List Nat), x < 256) ∧
      (∃ bm, NewBitmap [64, 0, 0, 0, 0, 0, 0, 0] = .ok (bm, 8) ∧
        bm.bytes = [64, 0, 0, 0, 0, 0, 0, 0])) ∧
    ((∀ x ∈ ([128, 0, 0, 0, 0, 0, 0, 0, 64, 0, 0, 0, 0, 0, 0, 1] : List Nat),
        x < 256) ∧
      (∃ bm, NewBitmap [128, 0, 0, 0, 0, 0, 0, 0, 64, 0, 0, 0, 0, 0, 0, 1]
          = .ok (bm, 16) ∧
        bm.bytes = [128, 0, 0, 0, 0, 0, 0, 0, 64, 0, 0, 0, 0, 0, 0, 1])) :=
  ⟨⟨by decide,
      (c2_bitmap_roundtrip [64, 0, 0, 0, 0, 0, 0, 0] (by decide)).1
        rfl (by decide)⟩,
   ⟨by decide,
      (c2_bitmap_roundtrip [128, 0, 0, 0, 0, 0, 0, 0, 64, 0, 0, 0, 0, 0, 0, 1]
        (by decide)).2 rfl (by decide)⟩⟩

/-! ## Claims C4 and C5: parse loop structure and Field lookup -/

/-- The parse loop invariant: the final offset bounds the initial one,
every recorded entry sits inside [offset, stop) with in-buffer bounds and
its key drawn (in order, without duplication) from the field list, and
the recorded extents tile [offset, stop) exactly. -/
theorem parseFields_chain (s : SpecMap) (buf : List Nat) :
    ∀ (fields : List Int) (offset : Nat) (cs : List (Int × Cursor))
      (stop : Nat),
    parseFields s buf fields offset = .ok (cs, stop) →
    offset ≤ stop ∧
    (cs.map Prod.fst).Sublist fields ∧
    (∀ fc ∈ cs, entryFacts s buf offset stop fc) ∧
    (∀ pos, offset ≤ pos → pos < stop →
      ∃! fc, fc ∈ cs ∧ extentMem s pos fc) := by
  intro fields
  induction fields with
  | nil =>
      intro offset cs stop h
      rw [parseFields] at h
      cases h
      refine ⟨Nat.le_refl _, by simp, by simp, ?_⟩
      intro pos h1 h2
      omega
  | cons f rest ih =>
      intro offset cs stop h
      rw [parseFields] at h
      by_cases hf1 : f = 1
      · rw [if_pos (by simp [hf1])] at h
        obtain ⟨hle, hsub, hmem, hcov⟩ := ih offset cs stop h
        exact ⟨hle, hsub.cons f, hmem, hcov⟩
      · rw [if_neg (by simp [hf1])] at h
        cases hl : lookupField s f with
        | none =>
            simp only [hl] at h
            obtain ⟨hle, hsub, hmem, hcov⟩ := ih offset cs stop h
            exact ⟨hle, hsub.cons f, hmem, hcov⟩
        | some fs =>
            simp only [hl] at h
            cases hp : ParseField s buf f offset with
            | error e =>
                simp only [hp] at h
                cases h
            | ok c =>
                simp only [hp] at h
                cases hr : parseFields s buf rest c.nextOffset with
                | error e =>
                    simp only [hr] at h
                    cases h
                | ok pr =>
                    obtain ⟨cs', stop'⟩ := pr
                    simp only [hr] at h
                    obtain ⟨hcs, hstop⟩ : (f, c) :: cs' = cs ∧ stop' = stop := by
                      refine ⟨?_, ?_⟩ <;> injection h with h1 <;>
                        cases h1 <;> rfl
                    subst hcs
                    subst hstop
                    obtain ⟨fs', hfs', hstart, hse, hend⟩ :=
                      parseField_ok_facts s buf f offset c hp
                    have hd : dOf s f = fs'.ftype.lengthIndicatorDigits := by
                      simp only [dOf, hfs']
                    have hexlo : exLo s (f, c) = offset := by
                      rw [exLo]
                      simp only
                      omega
                    obtain ⟨hle', hsub', hmem', hcov'⟩ :=
                      ih c.nextOffset cs' stop' hr
                    rw [Cursor.nextOffset] at hle' hmem' hcov'
                    have hcEnd : c.End ≤ stop' := hle'
                    refine ⟨by omega, ?_, ?_, ?_⟩
                    · exact hsub'.cons₂ f
                    · intro fc hfc
                      rcases List.mem_cons.mp hfc with rfl | hfc'
                      · show offset ≤ exLo s (f, c) ∧
                          exLo s (f, c) + dOf s f = c.Start ∧
                          c.Start ≤ c.End ∧ c.End ≤ stop' ∧
                          c.End ≤ buf.length ∧ f ≠ 1
                        refine ⟨by omega, by omega, hse, hcEnd, hend, hf1⟩
                      · obtain ⟨e1, e2, e3, e4, e5, e6⟩ := hmem' fc hfc'
                        refine ⟨?_, e2, e3, e4, e5, e6⟩
                        have hoc : offset ≤ c.End := by omega
                        omega
                    · intro pos hp1 hp2
                      by_cases hcase : pos < c.End
                      · refine ⟨(f, c), ⟨List.mem_cons_self _ _,
                          by rw [extentMem, hexlo]; exact ⟨hp1, hcase⟩⟩, ?_⟩
                        rintro fc'' ⟨hmem'', hx''⟩
                        rcases List.mem_cons.mp hmem'' with rfl | hmem''
                        · rfl
                        · obtain ⟨e1, -, -, -, -, -⟩ := hmem' fc'' hmem''
                          rw [extentMem] at hx''
                          omega
                      · obtain ⟨fc', ⟨hfc'mem, hfc'x⟩, huniq⟩ :=
                          hcov' pos (by omega) hp2
                        refine ⟨fc', ⟨List.mem_cons_of_mem _ hfc'mem,
                          hfc'x⟩, ?_⟩
                        rintro fc'' ⟨hmem'', hx''⟩
                        rcases List.mem_cons.mp hmem'' with rfl | hmem''
                        · rw [extentMem, hexlo] at hx''
                          have hlt : pos < c.End := hx''.2
                          omega
                        · exact huniq fc'' ⟨hmem'', hx''⟩

theorem mem_presentFields (b : Bitmap) (f : Int)
    (h : f ∈ b.presentFields) : 1 ≤ f ∧ f ≤ 128 ∧ b.isSet f = true := by
  rw [Bitmap.presentFields] at h
  rcases List.mem_append.mp h with h | h
  · obtain ⟨hm, hset⟩ := List.mem_filter.mp h
    obtain ⟨i, hi, rfl⟩ := List.mem_map.mp hm
    have hr := List.mem_range.mp hi
    exact ⟨by omega, by omega, hset⟩
  · by_cases hext : b.extended
    · rw [if_pos hext] at h
      obtain ⟨hm, hset⟩ := List.mem_filter.mp h
      obtain ⟨i, hi, rfl⟩ := List.mem_map.mp hm
      have hr := List.mem_range.mp hi
      exact ⟨by omega, by omega, hset⟩
    · rw [if_neg hext] at h
      cases h

theorem presentFields_nodup (b : Bitmap) : b.presentFields.Nodup := by
  rw [Bitmap.presentFields]
  apply List.Nodup.append
  · exact ((List.nodup_range 64).map (fun x y hxy => by omega)).filter _
  · by_cases hext : b.extended
    · rw [if_pos hext]
      exact ((List.nodup_range 64).map (fun x y hxy => by omega)).filter _
    · rw [if_neg hext]
      exact List.nodup_nil
  · intro x hx hy
    obtain ⟨hm, -⟩ := List.mem_filter.mp hx
    obtain ⟨i, hi, rfl⟩ := List.mem_map.mp hm
    have hri := List.mem_range.mp hi
    by_cases hext : b.extended
    · rw [if_pos hext] at hy
      obtain ⟨hm2, -⟩ := List.mem_filter.mp hy
      obtain ⟨j, hj, he⟩ := List.mem_map.mp hm2
      have hrj := List.mem_range.mp hj
      omega
    · rw [if_neg hext] at hy
      cases hy

theorem lookup_eq_some_of_mem (cs : List (Int × Cursor)) (f : Int)
    (c : Cursor) (hnd : (cs.map Prod.fst).Nodup) (hm : (f, c) ∈ cs) :
    cs.lookup f = some c := by
  induction cs with
  | nil => cases hm
  | cons hd tl ih =>
      obtain ⟨g, cg⟩ := hd
      rcases List.mem_cons.mp hm with he | hm'
      · obtain ⟨rfl, rfl⟩ : f = g ∧ c = cg := by
          refine ⟨?_, ?_⟩ <;> cases he <;> rfl
        simp [List.lookup_cons]
      · have hfg : f ≠ g := by
          intro he
          subst he
          have : f ∈ tl.map Prod.fst :=
            List.mem_map.mpr ⟨(f, c), hm', rfl⟩
          exact (List.nodup_cons.mp (by simpa using hnd)).1 this
        simp only [List.lookup_cons,
          show (f == g) = false from beq_eq_false_iff_ne.mpr hfg]
        exact ih (List.nodup_cons.mp (by simpa using hnd)).2 hm'

theorem mem_of_lookup_eq_some (cs : List (Int × Cursor)) (f : Int)
    (c : Cursor) (h : cs.lookup f = some c) : (f, c) ∈ cs := by
  induction cs with
  | nil => cases h
  | cons hd tl ih =>
      obtain ⟨g, cg⟩ := hd
      rw [List.lookup_cons] at h
      by_cases hfg : f = g
      · simp only [show (f == g) = true from beq_iff_eq.mpr hfg] at h
        cases h
        subst hfg
        exact List.mem_cons_self _ _
      · simp only [show (f == g) = false from beq_eq_false_iff_ne.mpr hfg]
          at h
        exact List.mem_cons_of_mem _ (ih h)

/-- Inversion of a successful Parse: the buffer holds at least 12 bytes,
the stored MTI is the first 4 bytes, the bitmap came from NewBitmap on
buf[4:], and the cursors and final offset came from the field loop
started right after the bitmap. -/
theorem msgParse_ok_inv (buf : List Nat) (s : SpecMap) (pm : ParsedMsg)
    (h : msgParse buf s = .ok pm) :
    12 ≤ buf.length ∧ pm.mti = buf.take 4 ∧
    (∃ k, NewBitmap (buf.drop 4) = .ok (pm.bitmap, k)) ∧
    parseFields s buf pm.bitmap.presentFields (postBitmapOffset pm.bitmap)
      = .ok (pm.cursors, pm.finalOffset) := by
  rw [msgParse] at h
  by_cases h4 : buf.length < 4
  · rw [if_pos h4] at h
    cases h
  · rw [if_neg h4] at h
    by_cases hmti : isValidMTIStructure (buf.take 4) = true
    · rw [if_neg (by simp [hmti])] at h
      by_cases h12 : buf.length < 12
      · rw [if_pos h12] at h
        cases h
      · rw [if_neg h12] at h
        cases hbm : NewBitmap (buf.drop 4) with
        | error e =>
            simp only [hbm] at h
            cases h
        | ok pr =>
            obtain ⟨bm, k⟩ := pr
            simp only [hbm] at h
            cases hpf : parseFields s buf bm.presentFields
                (postBitmapOffset bm) with
            | error e =>
                simp only [hpf] at h
                cases h
            | ok pr2 =>
                obtain ⟨cs, stop⟩ := pr2
                simp only [hpf] at h
                cases h
                exact ⟨by omega, rfl, ⟨k, rfl⟩, by exact hpf⟩
    · rw [if_pos (by simpa using hmti)] at h
      cases h

/-- Counterexample to C4 as stated: after this successful parse the byte
at position 12 (the first length-indicator digit) lies in the claimed
range from the end of the bitmap (offset 12) to the end of the last
cursor (16), yet belongs to no field Bytes slice, so the Bytes slices do
not partition that range. -/
theorem c4_counterexample :
    msgParse bufC4 specF2LL = .ok pmC4 ∧
    postBitmapOffset pmC4.bitmap = 12 ∧ pmC4.finalOffset = 16 ∧
    coveredByFieldBytes pmC4 12 = false := by
  exact ⟨by decide, by decide, by decide, by decide⟩

/-- Claim C4, amended: after a successful Parse, the extents of the
recorded fields (length indicator plus data bytes, the cursor preceded by
its indicator digits) tile the range from the end of the bitmap to the
final parse offset: every position there lies in exactly one extent; each
recorded cursor is in bounds, and whenever its slice is non-empty,
Field(n).Bytes() is exactly that sub-slice of the buffer, so the data
slices are pairwise disjoint and cover the range minus the length
indicators. -/
theorem c4_extent_partition (buf : List Nat) (s : SpecMap) (pm : ParsedMsg)
    (h : msgParse buf s = .ok pm) :
    postBitmapOffset pm.bitmap ≤ pm.finalOffset ∧
    (∀ pos, postBitmapOffset pm.bitmap ≤ pos → pos < pm.finalOffset →
      ∃! fc, fc ∈ pm.cursors ∧ extentMem s pos fc) ∧
    (∀ fc ∈ pm.cursors,
      exLo s fc + dOf s fc.1 = fc.2.Start ∧ fc.2.Start ≤ fc.2.End ∧
      fc.2.End ≤ buf.length ∧
      (fc.2.Start < fc.2.End →
        (msgField buf s pm fc.1).bytes =
          some ((buf.drop fc.2.Start).take (fc.2.End - fc.2.Start)))) := by
  obtain ⟨h12, hmti, ⟨k, hbm⟩, hpf⟩ := msgParse_ok_inv buf s pm h
  obtain ⟨hle, hsub, hmem, hcov⟩ := parseFields_chain s buf _ _ _ _ hpf
  refine ⟨hle, hcov, ?_⟩
  intro fc hfc
  obtain ⟨f, c⟩ := fc
  obtain ⟨e1, e2, e3, e4, e5, e6⟩ := hmem (f, c) hfc
  have e3' : c.Start ≤ c.End := e3
  have e5' : c.End ≤ buf.length := e5
  refine ⟨e2, e3, e5, ?_⟩
  intro hne
  have hne' : c.Start < c.End := hne
  have hfmem : f ∈ pm.bitmap.presentFields := by
    apply hsub.subset
    exact List.mem_map.mpr ⟨(f, c), hfc, rfl⟩
  obtain ⟨hf1, hf128, hfset⟩ := mem_presentFields pm.bitmap f hfmem
  have hnodup : (pm.cursors.map Prod.fst).Nodup :=
    hsub.nodup (presentFields_nodup pm.bitmap)
  have hlk : pm.cursors.lookup f = some c :=
    lookup_eq_some_of_mem _ _ _ hnodup hfc
  have hex : c.extract buf
      = some ((buf.drop c.Start).take (c.End - c.Start)) := by
    rw [Cursor.extract, if_neg (by omega)]
  rw [msgField, if_neg (by omega),
    if_neg (show ¬((f == 0) = true) from by simp; omega)]
  simp only [hfset, Bool.not_true, Bool.false_eq_true, if_false, hlk, hex]
  rfl

/-- Witness for the amended C4 at the concrete counterexample message. -/
theorem c4_extent_partition_witness :
    msgParse bufC4 specF2LL = .ok pmC4 ∧
    (postBitmapOffset pmC4.bitmap ≤ pmC4.finalOffset ∧
     (∀ pos, postBitmapOffset pmC4.bitmap ≤ pos → pos < pmC4.finalOffset →
       ∃! fc, fc ∈ pmC4.cursors ∧ extentMem specF2LL pos fc) ∧
     (∀ fc ∈ pmC4.cursors,
       exLo specF2LL fc + dOf specF2LL fc.1 = fc.2.Start ∧
       fc.2.Start ≤ fc.2.End ∧ fc.2.End ≤ bufC4.length ∧
       (fc.2.Start < fc.2.End →
         (msgField bufC4 specF2LL pmC4 fc.1).bytes =
           some ((bufC4.drop fc.2.Start).take (fc.2.End - fc.2.Start))))) :=
  ⟨by decide, c4_extent_partition bufC4 specF2LL pmC4 (by decide)⟩

/-- Counterexample to C5 as stated: after this successful parse, field 2
is inside [0,128], its bitmap bit is set and a cursor was recorded for it,
yet Field(2) is an absent accessor, because the recorded cursor is empty
and the parser Cursor.Extract returns nil when Start >= End. -/
theorem c5_counterexample :
    msgParse bufC5 specF2LL = .ok pmC5 ∧
    pmC5.bitmap.isSet 2 = true ∧
    pmC5.cursors.lookup 2 = some ⟨14, 14⟩ ∧
    (msgField bufC5 specF2LL pmC5 2).exist = false := by
  exact ⟨by decide, by decide, by decide, by decide⟩

/-- Claim C5, amended: after a successful Parse, Field(0) is the present
MTI accessor; for n other than 0, Field(n) is present exactly when n lies
in [0,128], the bitmap bit for n is set, and a cursor was recorded for n
whose slice is non-empty (a zero-length recorded cursor yields an absent
accessor, because Extract returns nil when Start >= End); and a recorded
cursor extracts to nil exactly when it is empty. -/
theorem c5_field_accessor (buf : List Nat) (s : SpecMap) (pm : ParsedMsg)
    (h : msgParse buf s = .ok pm) (n : Int) :
    (msgField buf s pm 0).exist = true ∧
    (n ≠ 0 →
      ((msgField buf s pm n).exist = true ↔
        (0 ≤ n ∧ n ≤ 128 ∧ pm.bitmap.isSet n = true ∧
          ∃ c, pm.cursors.lookup n = some c ∧ c.Start < c.End))) ∧
    (∀ c, pm.cursors.lookup n = some c →
      (c.extract buf = none ↔ c.Start = c.End)) := by
  obtain ⟨h12, hmti, ⟨k, hbm⟩, hpf⟩ := msgParse_ok_inv buf s pm h
  obtain ⟨hle, hsub, hmem, hcov⟩ := parseFields_chain s buf _ _ _ _ hpf
  refine ⟨?_, ?_, ?_⟩
  · rw [msgField, if_neg (by decide), if_pos (by decide)]
    have hlen4 : pm.mti.length = 4 := by
      rw [hmti, List.length_take]
      omega
    show (!pm.mti.isEmpty) = true
    cases hm : pm.mti with
    | nil => rw [hm] at hlen4; cases hlen4
    | cons a t => rfl
  · intro hn0
    by_cases hr : n < 0 ∨ 128 < n
    · rw [msgField, if_pos hr]
      show false = true ↔ _
      simp only [Bool.false_eq_true, false_iff]
      rintro ⟨h1, h2, -⟩
      omega
    · rw [msgField, if_neg hr,
        if_neg (show ¬((n == 0) = true) from by simp [hn0])]
      by_cases hset : pm.bitmap.isSet n = true
      · simp only [hset, Bool.not_true, Bool.false_eq_true, if_false]
        cases hlk : pm.cursors.lookup n with
        | none =>
            show false = true ↔ _
            simp only [Bool.false_eq_true, false_iff]
            rintro ⟨-, -, -, c, hc, -⟩
            cases hc
        | some c =>
            have hcm := mem_of_lookup_eq_some _ _ _ hlk
            obtain ⟨-, -, e3, -, e5, -⟩ := hmem (n, c) hcm
            have e3' : c.Start ≤ c.End := e3
            have e5' : c.End ≤ buf.length := e5
            by_cases hne2 : c.Start < c.End
            · have hex : c.extract buf
                  = some ((buf.drop c.Start).take (c.End - c.Start)) := by
                rw [Cursor.extract, if_neg (by omega)]
              simp only [hex]
              show true = true ↔ _
              simp only [true_iff]
              exact ⟨by omega, by omega, trivial, c, rfl, hne2⟩
            · have hex : c.extract buf = none := by
                rw [Cursor.extract, if_pos (by omega)]
              simp only [hex]
              show false = true ↔ _
              simp only [Bool.false_eq_true, false_iff]
              rintro ⟨-, -, -, c2, hc2, hlt2⟩
              cases hc2
              omega
      · have hset' : pm.bitmap.isSet n = false := by
          simpa using hset
        simp only [hset', Bool.not_false, if_true]
        show false = true ↔ _
        simp only [Bool.false_eq_true, false_iff]
        rintro ⟨-, -, hs2, -⟩
        exact hs2
  · intro c hlk
    have hcm := mem_of_lookup_eq_some _ _ _ hlk
    obtain ⟨-, -, e3, -, e5, -⟩ := hmem (n, c) hcm
    have e3' : c.Start ≤ c.End := e3
    have e5' : c.End ≤ buf.length := e5
    rw [Cursor.extract]
    by_cases hc : buf.length < c.End ∨ c.End ≤ c.Start
    · rw [if_pos hc]
      constructor
      · intro
        omega
      · intro
        rfl
    · rw [if_neg hc]
      constructor
      · intro hx
        cases hx
      · intro hx
        exfalso
        omega

/-- Witness for the amended C5 at the concrete C4 message, field 2. -/
theorem c5_field_accessor_witness :
    msgParse bufC4 specF2LL = .ok pmC4 ∧
    ((msgField bufC4 specF2LL pmC4 0).exist = true ∧
     ((2 : Int) ≠ 0 →
       ((msgField bufC4 specF2LL pmC4 2).exist = true ↔
         (0 ≤ (2 : Int) ∧ (2 : Int) ≤ 128 ∧
           pmC4.bitmap.isSet 2 = true ∧
           ∃ c, pmC4.cursors.lookup 2 = some c ∧ c.Start < c.End))) ∧
     (∀ c, pmC4.cursors.lookup 2 = some c →
       (c.extract bufC4 = none ↔ c.Start = c.End))) :=
  ⟨by decide, c5_field_accessor bufC4 specF2LL pmC4 (by decide) 2⟩

/-! ## Claim C3: the extended flag invariant -/

/-- Set preserves the extended flag invariant, for every field number. -/
theorem bitmapInv_set (b : Bitmap) (n : Int) (h : bitmapInv b) :
    bitmapInv (b.set n) := by
  unfold bitmapInv at *
  rw [isSet_one_eq] at *
  unfold Bitmap.set
  by_cases h1 : n < 1 ∨ 128 < n
  · rw [if_pos h1]; exact h
  · rw [if_neg h1]
    by_cases h2 : n = 1
    · subst h2
      simp only [show ((1 : Int) == 1) = true from rfl, if_true,
        if_pos (by decide : (1 : Int) ≤ 64)]
      rw [show ((64 : Int) - 1).toNat = 63 from by decide,
        Nat.one_shiftLeft, Nat.testBit_lor, Nat.testBit_two_pow_self]
      simp
    · have hbeq : (n == 1) = false := by
        simp only [beq_eq_false_iff_ne, ne_eq]
        exact h2
      simp only [hbeq, if_false, Bool.false_eq_true]
      by_cases h3 : n ≤ 64
      · rw [if_pos h3]
        show b.extended = Nat.testBit (b.primary ||| 1 <<< (64 - n).toNat) 63
        rw [Nat.one_shiftLeft, Nat.testBit_lor,
          Nat.testBit_two_pow_of_ne (by omega : (64 - n).toNat ≠ 63)]
        simp [h]
      · rw [if_neg h3]
        show true = Nat.testBit (b.primary ||| 1 <<< 63) 63
        rw [Nat.one_shiftLeft, Nat.testBit_lor, Nat.testBit_two_pow_self]
        simp

/-- Unset preserves the extended flag invariant for every field number
other than 1 (Unset(1) clears the bit but not the flag). -/
theorem bitmapInv_unset (b : Bitmap) (n : Int) (hn : n ≠ 1)
    (h : bitmapInv b) : bitmapInv (b.unset n) := by
  unfold bitmapInv at *
  rw [isSet_one_eq] at *
  unfold Bitmap.unset
  by_cases h1 : n < 1 ∨ 128 < n
  · rw [if_pos h1]; exact h
  · rw [if_neg h1]
    by_cases h3 : n ≤ 64
    · simp only [if_pos h3]
      rw [Nat.one_shiftLeft, Nat.testBit_ldiff,
        Nat.testBit_two_pow_of_ne (by omega : (64 - n).toNat ≠ 63)]
      simp [h]
    · simp only [if_neg h3]
      exact h

/-- NewBitmap establishes the extended flag invariant. -/
theorem bitmapInv_newBitmap (data : List Nat) (b : Bitmap) (k : Nat)
    (h : NewBitmap data = .ok (b, k)) : bitmapInv b := by
  unfold NewBitmap at h
  split at h
  · cases h
  · split at h
    · split at h
      · cases h
      · rename_i hs _
        rw [isSet_one_eq] at hs
        cases h
        unfold bitmapInv
        rw [isSet_one_eq]
        exact hs.symm
    · rename_i hs
      rw [isSet_one_eq] at hs
      cases h
      unfold bitmapInv
      rw [isSet_one_eq]
      simpa using (Bool.not_eq_true _).mp (by simpa using hs)

/-- Counterexample to C3 as stated: the sequence Set(1); Unset(1) from
the empty bitmap is a sequence of Set and Unset operations, yet it leaves
extended true while the primary bit for field 1 is clear, because Unset
never touches the extended flag. -/
theorem c3_inv_counterexample :
    (applyOps Bitmap.empty [BmOp.set 1, BmOp.unset 1]).extended = true ∧
    (applyOps Bitmap.empty [BmOp.set 1, BmOp.unset 1]).isSet 1 = false := by
  have e : applyOps Bitmap.empty [BmOp.set 1, BmOp.unset 1]
      = ⟨Nat.ldiff (1 <<< 63) (1 <<< 63), 0, true⟩ := rfl
  rw [e]
  refine ⟨rfl, ?_⟩
  rw [isSet_one_eq]
  show Nat.testBit (Nat.ldiff (1 <<< 63) (1 <<< 63)) 63 = false
  rw [Nat.testBit_ldiff]
  exact Bool.and_not_self _

/-- Claim C3, amended: the invariant extended == (primary bit for field 1)
holds of every bitmap reachable from the empty bitmap or from a
successful NewBitmap by any sequence of Set(n) and Unset(n) operations in
which no operation is Unset(1); Unset(1) clears the bit without clearing
the flag and is the one operation that breaks the invariant. -/
theorem c3_inv_reachable (b0 : Bitmap)
    (h0 : b0 = Bitmap.empty ∨ ∃ data k, NewBitmap data = .ok (b0, k))
    (ops : List BmOp) (hops : BmOp.unset 1 ∉ ops) :
    bitmapInv (applyOps b0 ops) := by
  have hinv0 : bitmapInv b0 := by
    rcases h0 with rfl | ⟨data, k, hnew⟩
    · unfold bitmapInv
      rw [isSet_one_eq]
      simp [Bitmap.empty]
    · exact bitmapInv_newBitmap data b0 k hnew
  clear h0
  induction ops generalizing b0 with
  | nil => exact hinv0
  | cons op rest ih =>
      have hop : op ≠ BmOp.unset 1 := fun he => hops (he ▸ List.mem_cons_self op rest)
      have hrest : BmOp.unset 1 ∉ rest := fun hm => hops (List.mem_cons_of_mem _ hm)
      have hstep : bitmapInv (applyOp b0 op) := by
        cases op with
        | set n => exact bitmapInv_set b0 n hinv0
        | unset n =>
            have : n ≠ 1 := by
              intro he; exact hop (by rw [he])
            exact bitmapInv_unset b0 n this hinv0
      exact ih (applyOp b0 op) hrest hstep

theorem c3_inv_reachable_witness :
    (Bitmap.empty = Bitmap.empty ∨
      ∃ data k, NewBitmap data = .ok (Bitmap.empty, k)) ∧
    BmOp.unset 1 ∉ opsC3W ∧
    bitmapInv (applyOps Bitmap.empty opsC3W) :=
  ⟨Or.inl rfl, by decide,
    c3_inv_reachable Bitmap.empty (Or.inl rfl) opsC3W (by decide)⟩

/-! ## Claim C7: getters of a non-existent accessor -/

/-- Counterexample to C7 as stated: an accessor constructed with
exists == false over one data byte has Len() equal to 1, not 0, because
Field.Len returns len(f.data) with no existence check. -/
theorem c7_len_counterexample :
    (mkField [65] false).exist = false ∧ (mkField [65] false).lenF = 1 ∧
      (mkField [65] false).lenF ≠ 0 := by
  exact ⟨rfl, rfl, by decide⟩

/-- Claim C7, amended: for every accessor constructed with exists == false,
whatever data, spec, parser and children it carries: Exists is false,
Bytes is nil, String is empty, Int and Int64 are 0, IntE and Int64E fail
with the field-not-present error, Hex is empty, and Len returns the byte
length of the construction data (which is 0 exactly when that data is
empty, as it is for every absent accessor the library itself builds). -/
theorem c7_absent_getters (data : List Nat) (sp : Option FSpec)
    (hp : Bool) (cs : List (Int × FieldS)) :
    (FieldS.mk data false sp hp cs).exist = false ∧
    (FieldS.mk data false sp hp cs).bytes = none ∧
    (FieldS.mk data false sp hp cs).str = [] ∧
    (FieldS.mk data false sp hp cs).int = 0 ∧
    (FieldS.mk data false sp hp cs).intE = .error .fieldNotPresent ∧
    (FieldS.mk data false sp hp cs).int64 = 0 ∧
    (FieldS.mk data false sp hp cs).int64E = .error .fieldNotPresent ∧
    (FieldS.mk data false sp hp cs).hex = [] ∧
    (FieldS.mk data false sp hp cs).lenF = data.length := by
  refine ⟨rfl, rfl, rfl, rfl, rfl, rfl, rfl, rfl, rfl⟩

/-! ## Claim C8: Subfield resolution is a stub in the source -/

/-- Claim C8: the spec describes lazy subfield resolution by walking the
child specs, but Field.Subfield in the source reaches its TODO stub and
returns a non-existent accessor even when the parent exists, has a spec
with a child of the requested number, and has a parser attached. -/
theorem c8_subfield_stub :
    parentC8.exist = true ∧
    parentC8.hasParser = true ∧
    (parentC8.fspec.map
      (fun sp => sp.children.any (fun c => c.number == 1))) = some true ∧
    parentC8.children = [] ∧
    (parentC8.subfield 1).exist = false ∧
    (parentC8.subfield 1).data = [] := by
  exact ⟨rfl, rfl, rfl, rfl, rfl, rfl⟩

/-! ## Claim C9: the Luhn rule -/

theorem luhnLoop_spec (parity : Nat) (s : List Nat) :
    ∀ i sum, luhnLoop parity i sum s = true ↔
      ((∀ c ∈ s, 48 ≤ c ∧ c ≤ 57) ∧
        (sum + ((s.enumFrom i).map (luhnDigitTerm parity)).sum) % 10 = 0) := by
  induction s with
  | nil => intro i sum; simp [luhnLoop]
  | cons c rest ih =>
      intro i sum
      by_cases hc : c < 48 ∨ 57 < c
      · simp only [luhnLoop, if_pos hc]
        constructor
        · intro h; cases h
        · rintro ⟨hd, -⟩
          have := hd c (by simp)
          omega
      · simp only [luhnLoop, if_neg hc]
        rw [ih (i + 1)]
        simp only [List.enumFrom_cons, List.map_cons, List.sum_cons,
          List.forall_mem_cons, luhnDigitTerm]
        constructor
        · rintro ⟨ha, hx⟩
          refine ⟨⟨⟨by omega, by omega⟩, ha⟩, ?_⟩
          rw [← Nat.add_assoc]
          exact hx
        · rintro ⟨⟨-, ha⟩, hx⟩
          refine ⟨ha, ?_⟩
          rw [← Nat.add_assoc] at hx
          exact hx

/-- The acceptance test of luhnCheck is exactly the acceptance condition
the claim describes. -/
theorem luhnCheck_iff (s : List Nat) : luhnCheck s = true ↔ luhnClaimHolds s := by
  rw [luhnCheck, luhnLoop_spec]
  simp only [luhnClaimHolds, List.enum, Nat.zero_add]

/-- Claim C9: the Luhn rule skips absent fields; on a present field it
accepts exactly when every character is a digit and the parity-weighted
sum (parity = len mod 2, digits at index i with i mod 2 = parity doubled
and reduced by 9 above 9) is divisible by 10; the scenario PANs behave as
the spec states. -/
theorem c9_luhn_rule (buf : List Nat) (s : SpecMap) (pm : ParsedMsg)
    (n : Int) :
    (msgHasField pm n = false → luhnRuleCheck buf s pm n = .ok ()) ∧
    (msgHasField pm n = true →
      (luhnRuleCheck buf s pm n = .ok () ↔
        luhnClaimHolds (msgField buf s pm n).str)) ∧
    luhnCheck panPass = true ∧ luhnCheck panFail = false ∧
    luhnCheck panShort = false := by
  refine ⟨?_, ?_, by decide, by decide, by decide⟩
  · intro h; simp [luhnRuleCheck, h]
  · intro h
    rw [← luhnCheck_iff]
    simp only [luhnRuleCheck, h, Bool.not_true, Bool.false_eq_true,
      if_false]
    by_cases hl : luhnCheck (msgField buf s pm n).str <;> simp [hl]

/-- Witness for C9: on a message whose field 2 is present and holds the
passing PAN, the rule accepts. -/
theorem c9_luhn_rule_witness :
    msgHasField pmC9W 2 = true ∧
    luhnRuleCheck bufC9W specF2LL pmC9W 2 = .ok () :=
  ⟨by decide,
    ((c9_luhn_rule bufC9W specF2LL pmC9W 2).2.1 (by decide)).mpr (by decide)⟩

/-! ## Claim C6: TLV decoding and long-form lengths -/

/-- Counterexample to C6 as stated: the decoder accepts an input whose
length byte has the high bit set, reading 0x81 as the plain length 129;
ParseMinimalTLV never inspects the high bit of the length byte. -/
theorem c6_tlv_counterexample :
    128 ≤ tlvLongFormInput.getD 1 0 ∧
    tlvDecode tlvLongFormInput = .ok (tlvLongFormInput, 131) := by
  exact ⟨by decide, by decide⟩

/-- ParseMinimalTLV accepts a one-byte-tag triplet (any trailing bytes). -/
theorem parseMinimalTLV_one (t l : Nat) (v r : List Nat)
    (ht : (t &&& 31 == 31) = false) (hv : v.length = l) :
    ParseMinimalTLV (t :: l :: (v ++ r)) = .ok ([t], l, v, 2 + l) := by
  rw [ParseMinimalTLV]
  rw [if_neg (by simp only [List.length_cons, not_lt]; omega)]
  simp only [List.getD_cons_zero, ht, if_false, Bool.false_eq_true]
  rw [if_neg (by simp)]
  rw [if_neg (by simp only [List.length_cons, not_lt]; omega)]
  simp only [List.getD_cons_succ, List.getD_cons_zero]
  rw [if_neg (by
    simp only [List.length_cons, List.length_append, not_lt]
    omega)]
  rw [show ((t :: l :: (v ++ r)).drop (1 + 1)) = v ++ r from rfl]
  rw [List.take_left' hv]
  rfl

/-- ParseMinimalTLV accepts a two-byte-tag triplet (any trailing bytes);
the second tag byte is consumed without further validation. -/
theorem parseMinimalTLV_two (t0 t1 l : Nat) (v r : List Nat)
    (ht : (t0 &&& 31 == 31) = true) (hv : v.length = l) :
    ParseMinimalTLV (t0 :: t1 :: l :: (v ++ r)) =
      .ok ([t0, t1], l, v, 3 + l) := by
  rw [ParseMinimalTLV]
  rw [if_neg (by simp only [List.length_cons, not_lt]; omega)]
  simp only [List.getD_cons_zero, ht, if_true]
  rw [if_neg (by
    simp only [List.length_cons, beq_self_eq_true, true_and, not_and,
      not_lt]
    omega)]
  rw [if_neg (by simp only [List.length_cons, not_lt]; omega)]
  simp only [List.getD_cons_succ, List.getD_cons_zero]
  rw [if_neg (by
    simp only [List.length_cons, List.length_append, not_lt]
    omega)]
  rw [show ((t0 :: t1 :: l :: (v ++ r)).drop (2 + 1)) = v ++ r from rfl]
  rw [List.take_left' hv]
  rfl

/-- ParseMinimalTLV rejects a one-byte-tag triplet missing value bytes. -/
theorem parseMinimalTLV_trunc_one (t l : Nat) (v : List Nat)
    (ht : (t &&& 31 == 31) = false) (hv : v.length < l) :
    ParseMinimalTLV (t :: l :: v) = .error .malformed := by
  rw [ParseMinimalTLV]
  rw [if_neg (by simp only [List.length_cons, not_lt]; omega)]
  simp only [List.getD_cons_zero, ht, if_false, Bool.false_eq_true]
  rw [if_neg (by simp)]
  rw [if_neg (by simp only [List.length_cons, not_lt]; omega)]
  simp only [List.getD_cons_succ, List.getD_cons_zero]
  rw [if_pos (by simp only [List.length_cons]; omega)]

/-- ParseMinimalTLV rejects a two-byte-tag triplet missing value bytes. -/
theorem parseMinimalTLV_trunc_two (t0 t1 l : Nat) (v : List Nat)
    (ht : (t0 &&& 31 == 31) = true) (hv : v.length < l) :
    ParseMinimalTLV (t0 :: t1 :: l :: v) = .error .malformed := by
  rw [ParseMinimalTLV]
  rw [if_neg (by simp only [List.length_cons, not_lt]; omega)]
  simp only [List.getD_cons_zero, ht, if_true]
  rw [if_neg (by
    simp only [List.length_cons, beq_self_eq_true, true_and, not_and,
      not_lt]
    omega)]
  rw [if_neg (by simp only [List.length_cons, not_lt]; omega)]
  simp only [List.getD_cons_succ, List.getD_cons_zero]
  rw [if_pos (by simp only [List.length_cons]; omega)]

/-- ParseMinimalTLV rejects a lone tag byte (header truncated). -/
theorem parseMinimalTLV_short (bad : List Nat) (h : bad.length = 1) :
    ParseMinimalTLV bad = .error .malformed := by
  rw [ParseMinimalTLV, if_pos (by omega)]

/-- ParseMinimalTLV rejects a two-byte tag with no length byte. -/
theorem parseMinimalTLV_missing_len (t0 t1 : Nat)
    (ht : (t0 &&& 31 == 31) = true) :
    ParseMinimalTLV [t0, t1] = .error .malformed := by
  rw [ParseMinimalTLV]
  rw [if_neg (by simp)]
  simp only [List.getD_cons_zero, ht, if_true]
  rw [if_pos ⟨rfl, by simp⟩]

/-- ParseMinimalTLV accepts every good triplet, whatever follows it. -/
theorem parse_goodTriplet (tr : List Nat × Nat × List Nat)
    (rest : List Nat) (h : goodTriplet tr) :
    ParseMinimalTLV (tripletBytes tr ++ rest) =
      .ok (tr.1, tr.2.1, tr.2.2, tr.1.length + 1 + tr.2.1) := by
  obtain ⟨tag, l, v⟩ := tr
  unfold goodTriplet at h
  obtain ⟨htag, hv, -⟩ := h
  have hv2 : v.length = l := hv
  rcases htag with ⟨t, he, ht⟩ | ⟨t0, t1, he, ht⟩
  · have he2 : tag = [t] := he
    subst he2
    show ParseMinimalTLV (([t] ++ l :: v) ++ rest) = .ok ([t], l, v, 1 + 1 + l)
    rw [show ([t] ++ l :: v) ++ rest = t :: l :: (v ++ rest) from by simp]
    rw [parseMinimalTLV_one t l v rest ht hv2]
  · have he2 : tag = [t0, t1] := he
    subst he2
    show ParseMinimalTLV (([t0, t1] ++ l :: v) ++ rest) =
      .ok ([t0, t1], l, v, 2 + 1 + l)
    rw [show ([t0, t1] ++ l :: v) ++ rest = t0 :: t1 :: l :: (v ++ rest)
      from by simp]
    rw [parseMinimalTLV_two t0 t1 l v rest ht hv2]

/-- ParseMinimalTLV rejects every truncated triplet with the
malformed-TLV error. -/
theorem parse_truncatedTriplet (bad : List Nat) (h : truncatedTriplet bad) :
    ParseMinimalTLV bad = .error .malformed := by
  unfold truncatedTriplet at h
  rcases h with h1 | ⟨t0, t1, rfl, ht⟩ | ⟨t, l, v, rfl, ht, hv⟩
    | ⟨t0, t1, l, v, rfl, ht, hv⟩
  · exact parseMinimalTLV_short bad h1
  · exact parseMinimalTLV_missing_len t0 t1 ht
  · exact parseMinimalTLV_trunc_one t l v ht hv
  · exact parseMinimalTLV_trunc_two t0 t1 l v ht hv

theorem tripletBytes_length (tr : List Nat × Nat × List Nat)
    (h : goodTriplet tr) :
    (tripletBytes tr).length = tr.1.length + 1 + tr.2.1 := by
  obtain ⟨tag, l, v⟩ := tr
  unfold goodTriplet at h
  obtain ⟨-, hv, -⟩ := h
  have hv2 : v.length = l := hv
  show (tag ++ l :: v).length = tag.length + 1 + l
  simp only [List.length_append, List.length_cons]
  omega

theorem tripletBytes_tag_pos (tr : List Nat × Nat × List Nat)
    (h : goodTriplet tr) : 1 ≤ tr.1.length := by
  unfold goodTriplet at h
  rcases h.1 with ⟨t, he, -⟩ | ⟨t0, t1, he, -⟩ <;> rw [he] <;> simp

/-- Re-encoding a good triplet reproduces its wire bytes. -/
theorem encode_goodTriplet (tr : List Nat × Nat × List Nat)
    (h : goodTriplet tr) :
    EncodeMinimalTLV tr.1 tr.2.2 = tripletBytes tr := by
  obtain ⟨tag, l, v⟩ := tr
  unfold goodTriplet at h
  obtain ⟨-, hv, hl⟩ := h
  have hv2 : v.length = l := hv
  have hl2 : l < 256 := hl
  show tag ++ [v.length % 256] ++ v = tag ++ l :: v
  have hm : v.length % 256 = l := by omega
  rw [hm]
  simp

theorem streamBytes_cons (tr : List Nat × Nat × List Nat)
    (trs : List (List Nat × Nat × List Nat)) :
    streamBytes (tr :: trs) = tripletBytes tr ++ streamBytes trs := by
  simp only [streamBytes]

/-- The decode loop consumes a stream of good triplets, re-emitting it
byte for byte and ending at the end of the buffer. -/
theorem tlvDecodeAux_stream_ok (data : List Nat) :
    ∀ (trs : List (List Nat × Nat × List Nat)) (fuel read : Nat)
      (out : List Nat),
    (∀ tr ∈ trs, goodTriplet tr) →
    read ≤ data.length →
    data.drop read = streamBytes trs →
    data.length - read + 1 ≤ fuel →
    tlvDecodeAux data fuel read out
      = .ok (out ++ streamBytes trs, data.length) := by
  intro trs
  induction trs with
  | nil =>
      intro fuel read out _ hr hdrop hfuel
      have hld : (data.drop read).length = 0 := by
        rw [hdrop]
        rfl
      rw [List.length_drop] at hld
      cases fuel with
      | zero => omega
      | succ k =>
          rw [tlvDecodeAux, if_pos (by omega)]
          have hre : read = data.length := by omega
          rw [hre]
          show Except.ok (out, data.length)
            = Except.ok (out ++ streamBytes [], data.length)
          simp [streamBytes]
  | cons tr trs2 ih =>
      intro fuel read out hgood hr hdrop hfuel
      have hgtr : goodTriplet tr := hgood tr (List.mem_cons_self _ _)
      have hTlen : (tripletBytes tr).length = tr.1.length + 1 + tr.2.1 :=
        tripletBytes_length tr hgtr
      have hTpos : 1 ≤ tr.1.length := tripletBytes_tag_pos tr hgtr
      have hld : (data.drop read).length
          = (tripletBytes tr).length + (streamBytes trs2).length := by
        rw [hdrop]
        show (tripletBytes tr ++ streamBytes trs2).length = _
        simp [List.length_append]
      rw [List.length_drop] at hld
      cases fuel with
      | zero => omega
      | succ k =>
          rw [tlvDecodeAux, if_neg (by omega)]
          have hparse : ParseMinimalTLV (data.drop read)
              = .ok (tr.1, tr.2.1, tr.2.2, tr.1.length + 1 + tr.2.1) := by
            rw [hdrop]
            show ParseMinimalTLV (tripletBytes tr ++ streamBytes trs2) = _
            exact parse_goodTriplet tr (streamBytes trs2) hgtr
          rw [hparse]
          show tlvDecodeAux data k (read + (tr.1.length + 1 + tr.2.1))
              (out ++ EncodeMinimalTLV tr.1 tr.2.2)
            = .ok (out ++ streamBytes (tr :: trs2), data.length)
          rw [encode_goodTriplet tr hgtr]
          have hdrop2 : data.drop (read + (tr.1.length + 1 + tr.2.1))
              = streamBytes trs2 := by
            rw [show read + (tr.1.length + 1 + tr.2.1)
              = read + (tripletBytes tr).length from by omega]
            rw [← List.drop_drop, hdrop, streamBytes_cons]
            exact List.drop_left _ _
          have hstep := ih k (read + (tr.1.length + 1 + tr.2.1))
            (out ++ tripletBytes tr)
            (fun tr2 htr2 => hgood tr2 (List.mem_cons_of_mem _ htr2))
            (by omega) hdrop2 (by omega)
          rw [hstep, streamBytes_cons, List.append_assoc]

/-- The decode loop fails with the malformed error as soon as it reaches
a truncated triplet, after any number of good ones. -/
theorem tlvDecodeAux_stream_bad (data : List Nat) :
    ∀ (trs : List (List Nat × Nat × List Nat)) (fuel read : Nat)
      (out bad : List Nat),
    (∀ tr ∈ trs, goodTriplet tr) →
    read ≤ data.length →
    data.drop read = streamBytes trs ++ bad →
    ParseMinimalTLV bad = .error .malformed →
    1 ≤ bad.length →
    data.length - read + 1 ≤ fuel →
    tlvDecodeAux data fuel read out = .error .malformed := by
  intro trs
  induction trs with
  | nil =>
      intro fuel read out bad _ hr hdrop hbad hbadlen hfuel
      have hdrop2 : data.drop read = bad := by
        rw [hdrop]
        show streamBytes [] ++ bad = bad
        simp [streamBytes]
      have hld : (data.drop read).length = bad.length := by rw [hdrop2]
      rw [List.length_drop] at hld
      cases fuel with
      | zero => omega
      | succ k =>
          rw [tlvDecodeAux, if_neg (by omega)]
          rw [hdrop2, hbad]
  | cons tr trs2 ih =>
      intro fuel read out bad hgood hr hdrop hbad hbadlen hfuel
      have hgtr : goodTriplet tr := hgood tr (List.mem_cons_self _ _)
      have hTlen : (tripletBytes tr).length = tr.1.length + 1 + tr.2.1 :=
        tripletBytes_length tr hgtr
      have hTpos : 1 ≤ tr.1.length := tripletBytes_tag_pos tr hgtr
      have hdrop1 : data.drop read
          = tripletBytes tr ++ (streamBytes trs2 ++ bad) := by
        rw [hdrop, streamBytes_cons, List.append_assoc]
      have hld : (data.drop read).length = (tripletBytes tr).length
          + ((streamBytes trs2).length + bad.length) := by
        rw [hdrop1]
        simp [List.length_append]
      rw [List.length_drop] at hld
      cases fuel with
      | zero => omega
      | succ k =>
          rw [tlvDecodeAux, if_neg (by omega)]
          have hparse : ParseMinimalTLV (data.drop read)
              = .ok (tr.1, tr.2.1, tr.2.2, tr.1.length + 1 + tr.2.1) := by
            rw [hdrop1]
            exact parse_goodTriplet tr (streamBytes trs2 ++ bad) hgtr
          rw [hparse]
          show tlvDecodeAux data k (read + (tr.1.length + 1 + tr.2.1))
              (out ++ EncodeMinimalTLV tr.1 tr.2.2) = .error .malformed
          have hdrop2 : data.drop (read + (tr.1.length + 1 + tr.2.1))
              = streamBytes trs2 ++ bad := by
            rw [show read + (tr.1.length + 1 + tr.2.1)
              = read + (tripletBytes tr).length from by omega]
            rw [← List.drop_drop, hdrop1]
            exact List.drop_left _ _
          exact ih k (read + (tr.1.length + 1 + tr.2.1))
            (out ++ EncodeMinimalTLV tr.1 tr.2.2) bad
            (fun tr2 htr2 => hgood tr2 (List.mem_cons_of_mem _ htr2))
            (by omega) hdrop2 hbad hbadlen (by omega)

/-- Claim C6, amended: Decode fails with the malformed-TLV error whenever
some triplet of the input - initial or not - is truncated (header bytes
or the declared number of value bytes missing, for either tag width), but
a length byte with the high bit set is not rejected: it is read as a
short-form length of 128..255 and a stream of such triplets is accepted
and re-emitted byte for byte; a second tag byte is consumed exactly when
the low five bits of the first are all ones, with no further tag-width
validation. -/
theorem c6_tlv_behaviour :
    (∀ tr rest, goodTriplet tr →
      ParseMinimalTLV (tripletBytes tr ++ rest) =
        .ok (tr.1, tr.2.1, tr.2.2, tr.1.length + 1 + tr.2.1)) ∧
    (∀ bad, truncatedTriplet bad →
      ParseMinimalTLV bad = .error .malformed) ∧
    (∀ trs, (∀ tr ∈ trs, goodTriplet tr) →
      tlvDecode (streamBytes trs) =
        .ok (streamBytes trs, (streamBytes trs).length)) ∧
    (∀ trs bad, (∀ tr ∈ trs, goodTriplet tr) → truncatedTriplet bad →
      tlvDecode (streamBytes trs ++ bad) = .error .malformed) := by
  refine ⟨fun tr rest h => parse_goodTriplet tr rest h,
    fun bad h => parse_truncatedTriplet bad h, ?_, ?_⟩
  · intro trs hgood
    by_cases h0 : (streamBytes trs).length = 0
    · rw [tlvDecode, if_pos (by simpa using h0)]
      have he : streamBytes trs = [] := List.length_eq_zero.mp h0
      rw [he]
      rfl
    · rw [tlvDecode, if_neg (by simpa using h0)]
      have hrun := tlvDecodeAux_stream_ok (streamBytes trs) trs
        ((streamBytes trs).length + 1) 0 [] hgood (by omega) (by simp)
        (by omega)
      simpa using hrun
  · intro trs bad hgood htrunc
    have hbadlen : 1 ≤ bad.length := by
      unfold truncatedTriplet at htrunc
      rcases htrunc with h1 | ⟨t0, t1, rfl, -⟩ | ⟨t, l, v, rfl, -, -⟩
        | ⟨t0, t1, l, v, rfl, -, -⟩
      · omega
      · simp
      · simp
      · simp
    rw [tlvDecode,
      if_neg (by simp only [List.length_append, beq_iff_eq]; omega)]
    exact tlvDecodeAux_stream_bad (streamBytes trs ++ bad) trs
      ((streamBytes trs ++ bad).length + 1) 0 [] bad hgood (by omega)
      (by simp) (parse_truncatedTriplet bad htrunc) hbadlen (by omega)

/-- Witness for the amended C6: a stream of two good triplets - the first
with high-bit length byte 130, the second with a two-byte tag - decodes
to itself, and the same stream followed by a value-truncated triplet
fails with the malformed error. -/
theorem c6_tlv_behaviour_witness :
    (∀ tr ∈ trsC6W, goodTriplet tr) ∧ truncatedTriplet badC6W ∧
    tlvDecode (streamBytes trsC6W) =
      .ok (streamBytes trsC6W, (streamBytes trsC6W).length) ∧
    tlvDecode (streamBytes trsC6W ++ badC6W) = .error .malformed := by
  have hg : ∀ tr ∈ trsC6W, goodTriplet tr := by
    intro tr htr
    simp only [trsC6W, List.mem_cons, List.not_mem_nil, or_false] at htr
    rcases htr with rfl | rfl
    · exact ⟨Or.inl ⟨90, rfl, by decide⟩, by simp, by decide⟩
    · exact ⟨Or.inr ⟨159, 1, rfl, by decide⟩, by decide, by decide⟩
  have ht : truncatedTriplet badC6W :=
    Or.inr (Or.inr (Or.inl ⟨90, 5, [7, 7], rfl, by decide, by decide⟩))
  exact ⟨hg, ht, c6_tlv_behaviour.2.2.1 trsC6W hg,
    c6_tlv_behaviour.2.2.2 trsC6W badC6W hg ht⟩

end Iso8583
